import Mathlib

/-!
Verification of the NGPC layered 2bpp tile exporter
(src/piskel/MiscExportController.js).

The exporter converts a multi-frame RGBA raster into per-tile, per-layer
palettized 2bpp tile data:

* pass 1 (buildLayeredPlan_): per 8x8 tile, collect the distinct opaque
  colors in scan order, sort them lexicographically by (r,g,b,a), split the
  sorted list into chunks of 3 (one chunk per layer), failing when a tile
  needs more than maxLayers chunks;
* pass 2: per layer, build a 4-slot RGB444 palette per tile
  (buildTilePaletteRgb444_), intern it into the layer's palette bank
  (findOrAddPalette_, failing when the bank is full), and bit-pack the
  tile's pixels into 16 bytes (encodeNgpcTile2bppLayered_).

Pixel buffers are modelled exactly as the source reads them: a flat list of
bytes in RGBA order, indexed by ((y * width + x) * 4 + component).
-/

/-- RGBA color key: identity is exact equality of the four 8-bit components,
mirroring the string key `r + ',' + g + ',' + b + ',' + a` of rgbaKey_. -/
structure RGBA where
  r : Nat
  g : Nat
  b : Nat
  a : Nat
deriving DecidableEq, Inhabited

/-- Read one byte of a flat RGBA pixel buffer (out-of-range reads 0). -/
def pxAt (pix : List Nat) (i : Nat) : Nat := pix.getD i 0

/-- The four components of the pixel at absolute coordinates (x, y), read at
index (y * imgW + x) * 4 exactly as the source does. -/
def pixelRGBA (pix : List Nat) (imgW x y : Nat) : RGBA :=
  let ix := (y * imgW + x) * 4
  ⟨pxAt pix ix, pxAt pix (ix + 1), pxAt pix (ix + 2), pxAt pix (ix + 3)⟩

/-- RGB444 packing from rgbToRgb444_: 0x0BGR from each channel's top 4 bits. -/
def rgbToRgb444 (r g b : Nat) : Nat :=
  let r4 := (r >>> 4) &&& 0x0F
  let g4 := (g >>> 4) &&& 0x0F
  let b4 := (b >>> 4) &&& 0x0F
  (b4 <<< 8) ||| (g4 <<< 4) ||| r4

/-- Tile-local coordinates (y, x) in the nested loop order of the source:
y (row) outer, x (column) inner, both 0..7. -/
def tileCoords : List (Nat × Nat) :=
  ((List.range 8).map (fun y => (List.range 8).map (fun x => (y, x)))).flatten

/-- One step of the color-collection loop of buildLayeredPlan_: skip
transparent pixels, append unseen opaque colors (the JS set/list pair keeps
first-occurrence order and deduplicates by exact key). -/
def collectStep (pix : List Nat) (width tx ty : Nat)
    (list : List RGBA) (yx : Nat × Nat) : List RGBA :=
  let p := pixelRGBA pix width (tx * 8 + yx.2) (ty * 8 + yx.1)
  if p.a = 0 then list
  else if p ∈ list then list
  else list ++ [p]

/-- The distinct opaque colors of tile (tx, ty), in first-occurrence scan
order (buildLayeredPlan_, inner collection loop). -/
def collectTileColors (pix : List Nat) (width tx ty : Nat) : List RGBA :=
  tileCoords.foldl (collectStep pix width tx ty) []

/-- Lexicographic comparison over (r, g, b, a) as integers, the Boolean
counterpart of the comparator rgbaKeySort_. -/
def rgbaLe (x y : RGBA) : Bool :=
  if x.r < y.r then true else if y.r < x.r then false
  else if x.g < y.g then true else if y.g < x.g then false
  else if x.b < y.b then true else if y.b < x.b then false
  else decide (x.a ≤ y.a)

/-- Insert a color into a list just before the first entry it compares below,
the elementary step of sorting by rgbaKeySort_. -/
def insertSorted (c : RGBA) : List RGBA → List RGBA
  | [] => [c]
  | h :: t => if rgbaLe c h then c :: h :: t else h :: insertSorted c t

/-- Sorting by the deterministic comparator rgbaKeySort_ (insertion sort;
the keys are distinct so the sorted permutation is unique). -/
def sortColors : List RGBA → List RGBA
  | [] => []
  | h :: t => insertSorted h (sortColors t)

/-- Sorted distinct opaque color list of a tile (list.sort(rgbaKeySort_)). -/
def tileColorsSorted (pix : List Nat) (width tx ty : Nat) : List RGBA :=
  sortColors (collectTileColors pix width tx ty)

/-- Number of layers a tile needs: chunks = ceil(list.length / 3). -/
def tileChunksAt (pix : List Nat) (width tx ty : Nat) : Nat :=
  ((collectTileColors pix width tx ty).length + 2) / 3

/-- The layer-l color group of a tile: list.slice(3*l, 3*l + 3) of the sorted
color list; empty for layers past the tile's chunk count. -/
def tileGroupAt (pix : List Nat) (width tx ty l : Nat) : List RGBA :=
  ((tileColorsSorted pix width tx ty).drop (3 * l)).take 3

/-!
Encoder definitions (encodeNgpcTile2bppLayered_ and helpers).
-/

/-- Building the JS object `map` of encodeNgpcTile2bppLayered_: entry i of the
group is bound to (i + 1) & 3, later entries overwriting earlier ones.  The
accumulator is the partial map, absent keys give 0 (JS undefined is falsy). -/
def buildIdxMapAux : Nat → List RGBA → (RGBA → Nat) → (RGBA → Nat)
  | _, [], m => m
  | i, c :: rest, m =>
    buildIdxMapAux (i + 1) rest (fun k => if k = c then (i + 1) % 4 else m k)

/-- The color-to-index map of encodeNgpcTile2bppLayered_. -/
def buildIdxMap (groupKeys : List RGBA) : RGBA → Nat :=
  buildIdxMapAux 0 groupKeys (fun _ => 0)

/-- The 2-bit code of one pixel in one layer: 0 when transparent, else the
map's value for its color with JS truthiness (0 when absent or falsy). -/
def tilePixelCode (pix : List Nat) (imgW : Nat) (m : RGBA → Nat) (x y : Nat) : Nat :=
  let p := pixelRGBA pix imgW x y
  if p.a = 0 then 0
  else if m p = 0 then 0 else m p

/-- One output byte of a tile row: the k-loop of encodeNgpcTile2bppLayered_,
OR-ing each pixel's 2-bit code at bit position k*2, pixel k sitting at column
x0 + (startX - k); startX is 7 for the first byte of a row, 3 for the second. -/
def tileRowByte (pix : List Nat) (imgW x0 y0 : Nat) (m : RGBA → Nat)
    (y startX : Nat) : Nat :=
  ((List.range 4).foldl
    (fun byteVal k =>
      byteVal ||| (((tilePixelCode pix imgW m (x0 + (startX - k)) (y0 + y)) &&& 3) <<< (k * 2)))
    0) &&& 255

/-- The 16-byte 2bpp tile record of encodeNgpcTile2bppLayered_: 8 rows top to
bottom, two bytes per row (columns 7..4 then 3..0). -/
def encodeNgpcTile2bppLayered (pix : List Nat) (imgW x0 y0 : Nat)
    (groupKeys : List RGBA) : List Nat :=
  ((List.range 8).map (fun y =>
    [tileRowByte pix imgW x0 y0 (buildIdxMap groupKeys) y 7,
     tileRowByte pix imgW x0 y0 (buildIdxMap groupKeys) y 3])).flatten

/-- Bit position of a pixel at tile-column offset x, as documented for the
packing: within a 4-pixel block, the rightmost pixel (greatest column) sits at
bits 0..1 and each pixel leftward two bits higher. -/
def pixelBitShift (x : Nat) : Nat :=
  if 4 ≤ x then (7 - x) * 2 else (3 - x) * 2

/-- Read back the 2-bit code of pixel (x, y) from a 16-byte tile record using
the documented layout (byte 2y covers columns 7..4, byte 2y+1 columns 3..0). -/
def decodePixelIdx (bytes : List Nat) (x y : Nat) : Nat :=
  ((bytes.getD (y * 2 + (if 4 ≤ x then 0 else 1)) 0) >>> pixelBitShift x) &&& 3

/-- Hypothetical decoder for the reading of the spec sentence "increasing
column offset within the block maps to increasing bit position": the pixel at
the greater column offset is read from the higher bit position of its byte. -/
def decodePixelIdxIncreasing (bytes : List Nat) (x y : Nat) : Nat :=
  ((bytes.getD (y * 2 + (if 4 ≤ x then 0 else 1)) 0) >>>
    (if 4 ≤ x then (x - 4) * 2 else x * 2)) &&& 3

/-!
Palette definitions (buildTilePaletteRgb444_, findOrAddPalette_).
-/

/-- Slot i+1 of a tile palette: the RGB444 packing of group entry i if it
exists (only i < 3 is ever consulted), otherwise 0. -/
def paletteSlot (groupKeys : List RGBA) (i : Nat) : Nat :=
  match groupKeys[i]? with
  | some c => rgbToRgb444 c.r c.g c.b
  | none => 0

/-- The 4-slot palette of buildTilePaletteRgb444_:
slot 0 transparent (0), slots 1..3 the quantized group colors, missing 0. -/
def buildTilePaletteRgb444 (groupKeys : List RGBA) : List Nat :=
  [0, paletteSlot groupKeys 0, paletteSlot groupKeys 1, paletteSlot groupKeys 2]

/-- Index of the first bank entry equal to pal4 (the linear scan of
findOrAddPalette_; bank entries and pal4 are 4-slot palettes, so the
slot-by-slot comparison of the source is list equality). -/
def palSearch : List (List Nat) → List Nat → Option Nat
  | [], _ => none
  | p :: rest, pal => if p = pal then some 0 else (palSearch rest pal).map (· + 1)

/-- findOrAddPalette_: reuse the index of an equal entry, else append when
below capacity, else signal -1.  The returned bank is the (possibly grown)
bank, standing for the in-place mutation of the source. -/
def findOrAddPalette (bank : List (List Nat)) (pal4 : List Nat) (maxCount : Nat) :
    Int × List (List Nat) :=
  match palSearch bank pal4 with
  | some i => ((i : Int), bank)
  | none =>
    if bank.length ≥ maxCount then (-1, bank)
    else ((bank.length : Int), bank ++ [pal4])

/-!
Pass 1: the layered plan (buildLayeredPlan_).
-/

/-- The LayerOverflow failure payload: the alert of buildLayeredPlan_ reports
the tile coordinates, frame, observed color count and color budget. -/
structure LOErr where
  frame : Nat
  tx : Nat
  ty : Nat
  colorCount : Nat
  budget : Nat
deriving DecidableEq, Inhabited

/-- The successful plan: global layer count and
groups[layer][frame][tileId], shrunk to layerCount layers. -/
structure Plan where
  layerCount : Nat
  groups : List (List (List (List RGBA)))
deriving DecidableEq, Inhabited

/-- Access plan.groups[l][fi][t] (plan groups are dense; defaults only fire
out of range). -/
def planGroupAt (plan : Plan) (l fi t : Nat) : List RGBA :=
  ((plan.groups.getD l []).getD fi []).getD t []

/-- The chunk count of scan position i (frame i / tilesPerFrame, tile
i % tilesPerFrame; tiles scan left-to-right, top-to-bottom, so
tx = tile % tilesX and ty = tile / tilesX). -/
def chunksAtIdx (frames : List (List Nat)) (width tilesX TPF i : Nat) : Nat :=
  tileChunksAt (frames.getD (i / TPF) []) width ((i % TPF) % tilesX) ((i % TPF) / tilesX)

/-- buildLayeredPlan_: scan all frames and tiles in order; fail at the first
tile whose chunk count exceeds maxLayers, otherwise produce the group
assignment and the needed layer count (a running maximum started at 1). -/
def buildLayeredPlan (frames : List (List Nat)) (width height maxLayers : Nat) :
    Except LOErr Plan :=
  let tilesX := width / 8
  let tilesY := height / 8
  let TPF := tilesX * tilesY
  let F := frames.length
  match (List.range (F * TPF)).find?
      (fun i => decide (maxLayers < chunksAtIdx frames width tilesX TPF i)) with
  | some i =>
    .error
      { frame := i / TPF
        tx := (i % TPF) % tilesX
        ty := (i % TPF) / tilesX
        colorCount :=
          (collectTileColors (frames.getD (i / TPF) []) width
            ((i % TPF) % tilesX) ((i % TPF) / tilesX)).length
        budget := maxLayers * 3 }
  | none =>
    let neededLayers :=
      ((List.range (F * TPF)).map (chunksAtIdx frames width tilesX TPF)).foldl max 1
    .ok
      { layerCount := neededLayers
        groups :=
          (List.range neededLayers).map (fun l =>
            (List.range F).map (fun fi =>
              (List.range TPF).map (fun t =>
                tileGroupAt (frames.getD fi []) width (t % tilesX) (t / tilesX) l))) }

/-!
Pass 2: palette interning and tile encoding, threading each layer's palette
bank through the frame/tile scan exactly as onDownloadCFileClick_ does
(the bank of layer l only changes while layer l is processed, and tile bytes
do not depend on any bank).
-/

/-- The PaletteOverflow failure payload: the alert reports the layer and the
configured capacity. -/
structure POErr where
  layer : Nat
  capacity : Nat
deriving DecidableEq, Inhabited

/-- Intern the palettes of a sequence of tile groups into a bank, in order,
returning the final bank and each tile's palette id; none when
findOrAddPalette signals a full bank. -/
def internLayer (maxPals : Nat) : List (List RGBA) → List (List Nat) →
    Option (List (List Nat) × List Nat)
  | [], bank => some (bank, [])
  | g :: rest, bank =>
    match findOrAddPalette bank (buildTilePaletteRgb444 g) maxPals with
    | (id, bank2) =>
      if id < 0 then none
      else
        match internLayer maxPals rest bank2 with
        | none => none
        | some (bankF, ids) => some (bankF, id.toNat :: ids)

/-- The groups of layer l over the whole image, in the scan order of pass 2
(frame outer, tile inner; position i is frame i / TPF, tile i % TPF). -/
def layerGroupsSeq (plan : Plan) (F TPF l : Nat) : List (List RGBA) :=
  (List.range (F * TPF)).map (fun i => planGroupAt plan l (i / TPF) (i % TPF))

/-- The encoded tile records of layer l over the whole image, in scan order
(tile i % TPF sits at pixel (8 * (tile % tilesX), 8 * (tile / tilesX))). -/
def layerTilesSeq (frames : List (List Nat)) (width tilesX TPF : Nat)
    (plan : Plan) (F l : Nat) : List (List Nat) :=
  (List.range (F * TPF)).map (fun i =>
    encodeNgpcTile2bppLayered (frames.getD (i / TPF) []) width
      (((i % TPF) % tilesX) * 8) (((i % TPF) / tilesX) * 8)
      (planGroupAt plan l (i / TPF) (i % TPF)))

/-- Process the listed layers in order: intern layer l's palettes (failing
fast with the PaletteOverflow payload of the alert), collect its palette
bank, palette-id table and tile records. -/
def pass2Layers (frames : List (List Nat)) (width tilesX TPF F maxPals : Nat)
    (plan : Plan) :
    List Nat →
      Except POErr (List (List (List Nat)) × List (List Nat) × List (List (List Nat)))
  | [] => .ok ([], [], [])
  | l :: rest =>
    match internLayer maxPals (layerGroupsSeq plan F TPF l) [] with
    | none => .error ⟨l, maxPals⟩
    | some (bank, ids) =>
      match pass2Layers frames width tilesX TPF F maxPals plan rest with
      | .error e => .error e
      | .ok (banks, idss, tiless) =>
        .ok (bank :: banks, ids :: idss,
          layerTilesSeq frames width tilesX TPF plan F l :: tiless)

/-- The toplevel failure taxonomy of the export. -/
inductive EncodeError where
  | invalidDimensions (w h : Nat)
  | layerOverflow (e : LOErr)
  | paletteOverflow (e : POErr)
deriving DecidableEq, Inhabited

/-- The output tables of a successful export.  Frame/tile dimensions of
palIds and tiles are flattened to scan order: position fi * (tilesX * tilesY)
+ tileId. -/
structure NgpcOutput where
  layerCount : Nat
  tilesX : Nat
  tilesY : Nat
  banks : List (List (List Nat))
  palIds : List (List Nat)
  tiles : List (List (List Nat))
deriving DecidableEq, Inhabited

/-- The whole export (onDownloadCFileClick_ without the C-text emission):
reject dimensions not divisible by 8, build the plan, then run pass 2 over
layers 0..layerCount-1.  Any failure yields an error and no output. -/
def encodeAll (frames : List (List Nat)) (width height maxLayers maxPals : Nat) :
    Except EncodeError NgpcOutput :=
  if width % 8 = 0 ∧ height % 8 = 0 then
    match buildLayeredPlan frames width height maxLayers with
    | .error e => .error (.layerOverflow e)
    | .ok plan =>
      match pass2Layers frames width (width / 8) ((width / 8) * (height / 8))
          frames.length maxPals plan (List.range plan.layerCount) with
      | .error e => .error (.paletteOverflow e)
      | .ok (banks, idss, tiless) =>
        .ok ⟨plan.layerCount, width / 8, height / 8, banks, idss, tiless⟩
  else .error (.invalidDimensions width height)

/-- Position of the first occurrence of a color in a list (0-based). -/
def posOf (c : RGBA) : List RGBA → Nat
  | [] => 0
  | h :: t => if h = c then 0 else posOf c t + 1


/-- Composite of all layers at frame fi and pixel (px, py), formalizing the
reassembly the exporter documents: draw layer 0 then each next layer at the
same tile positions; a pixel index of 0 is transparent, a nonzero index shows
that layer's palette entry (looked up through the tile's interned palette
id).  The result is none when every layer is transparent there. -/
def compositeAt (out : NgpcOutput) (fi px py : Nat) : Option Nat :=
  (List.range out.layerCount).foldl
    (fun acc l =>
      let t := (py / 8) * out.tilesX + px / 8
      let i := fi * (out.tilesX * out.tilesY) + t
      let idx := decodePixelIdx ((out.tiles.getD l []).getD i []) (px % 8) (py % 8)
      if idx = 0 then acc
      else some (((out.banks.getD l []).getD ((out.palIds.getD l []).getD i 0) []).getD idx 0))
    none

/-- Projection of a successful export result (default on failure). -/
def okOutput (r : Except EncodeError NgpcOutput) : NgpcOutput :=
  match r with
  | .ok o => o
  | .error _ => default

/-- Projection of a successful plan (default on failure). -/
def okPlan (r : Except LOErr Plan) : Plan :=
  match r with
  | .ok p => p
  | .error _ => default


/-- Projection of a failed plan (default on success). -/
def errOf (r : Except LOErr Plan) : LOErr :=
  match r with
  | .error e => e
  | .ok _ => default

/-- Build a flat 8x8 RGBA pixel buffer from a pixel function (x, y are the
column and row, row-major like the canvas ImageData the exporter reads). -/
def mkPix8 (f : Nat → Nat → RGBA) : List Nat :=
  ((List.range 64).map (fun i =>
    [(f (i % 8) (i / 8)).r, (f (i % 8) (i / 8)).g,
     (f (i % 8) (i / 8)).b, (f (i % 8) (i / 8)).a])).flatten

/-- Test colors for concrete checks. -/
def colorA : RGBA := ⟨17, 34, 51, 255⟩

def colorB : RGBA := ⟨1, 2, 3, 255⟩

def colorC : RGBA := ⟨4, 5, 6, 255⟩

/-- Test frame: the top row holds colorA in columns 4..7, everything else is
transparent. -/
def testFrameA : List Nat :=
  mkPix8 (fun x y => if y = 0 ∧ 4 ≤ x then colorA else ⟨0, 0, 0, 0⟩)

/-- Test frame: fully transparent. -/
def testFrameT : List Nat := List.replicate 256 0

/-- Test frame: a single colorA pixel at column 7 of the top row. -/
def testFrameC9 : List Nat :=
  mkPix8 (fun x y => if x = 7 ∧ y = 0 then colorA else ⟨0, 0, 0, 0⟩)

/-- Test frame: two colors that differ only in their (nonzero) alpha. -/
def testFrameC10 : List Nat :=
  mkPix8 (fun x y =>
    if x = 0 ∧ y = 0 then ⟨17, 0, 0, 255⟩
    else if x = 1 ∧ y = 0 then ⟨17, 0, 0, 128⟩
    else ⟨0, 0, 0, 0⟩)

/-- Test frame: 10 distinct opaque colors in one tile (over the budget of 9
when maxLayers is 3). -/
def testFrameC8 : List Nat :=
  mkPix8 (fun x y =>
    if y = 0 then ⟨x + 1, 0, 0, 255⟩
    else if y = 1 ∧ x < 2 then ⟨x + 9, 0, 0, 255⟩
    else ⟨0, 0, 0, 0⟩)

section CollectLemmas

/-- Membership in one collection step: the accumulator's elements plus the
scanned pixel's color when that pixel is opaque. -/
theorem mem_collectStep (pix : List Nat) (width tx ty : Nat)
    (init : List RGBA) (yx : Nat × Nat) (c : RGBA) :
    c ∈ collectStep pix width tx ty init yx ↔
      (c ∈ init ∨
        (pixelRGBA pix width (tx * 8 + yx.2) (ty * 8 + yx.1) = c ∧ c.a ≠ 0)) := by
  unfold collectStep
  dsimp only
  by_cases ha : (pixelRGBA pix width (tx * 8 + yx.2) (ty * 8 + yx.1)).a = 0
  · simp only [ha, if_true]
    constructor
    · exact Or.inl
    · rintro (h | ⟨rfl, hc⟩)
      · exact h
      · exact absurd ha hc
  · simp only [ha, if_false]
    by_cases hm : pixelRGBA pix width (tx * 8 + yx.2) (ty * 8 + yx.1) ∈ init
    · simp only [hm, if_true]
      constructor
      · exact Or.inl
      · rintro (h | ⟨rfl, hc⟩)
        · exact h
        · exact hm
    · simp only [hm, if_false, List.mem_append, List.mem_singleton]
      constructor
      · rintro (h | rfl)
        · exact Or.inl h
        · exact Or.inr ⟨rfl, ha⟩
      · rintro (h | ⟨rfl, hc⟩)
        · exact Or.inl h
        · exact Or.inr rfl

/-- Membership through the collection fold: an element of the result is an
element of the accumulator or an opaque pixel color at one of the scanned
coordinates. -/
theorem mem_foldl_collectStep (pix : List Nat) (width tx ty : Nat) :
    ∀ (coords : List (Nat × Nat)) (init : List RGBA) (c : RGBA),
      c ∈ coords.foldl (collectStep pix width tx ty) init ↔
        (c ∈ init ∨ ∃ yx ∈ coords,
          pixelRGBA pix width (tx * 8 + yx.2) (ty * 8 + yx.1) = c ∧ c.a ≠ 0) := by
  intro coords
  induction coords with
  | nil => simp
  | cons yx rest ih =>
    intro init c
    rw [List.foldl_cons, ih, mem_collectStep]
    constructor
    · rintro ((h | h) | ⟨z, hz, hzc⟩)
      · exact Or.inl h
      · exact Or.inr ⟨yx, List.mem_cons.2 (Or.inl rfl), h⟩
      · exact Or.inr ⟨z, List.mem_cons.2 (Or.inr hz), hzc⟩
    · rintro (h | ⟨z, hz, hzc⟩)
      · exact Or.inl (Or.inl h)
      · rcases List.mem_cons.1 hz with rfl | hz2
        · exact Or.inl (Or.inr hzc)
        · exact Or.inr ⟨z, hz2, hzc⟩

/-- The collection fold preserves Nodup. -/
theorem nodup_foldl_collectStep (pix : List Nat) (width tx ty : Nat) :
    ∀ (coords : List (Nat × Nat)) (init : List RGBA),
      init.Nodup → (coords.foldl (collectStep pix width tx ty) init).Nodup := by
  intro coords
  induction coords with
  | nil => intro init h; simpa using h
  | cons yx rest ih =>
    intro init h
    rw [List.foldl_cons]
    apply ih
    unfold collectStep
    dsimp only
    split
    · exact h
    · split
      · exact h
      · next hm =>
        refine List.Nodup.append h (List.nodup_singleton _) ?_
        intro a hai hap
        rw [List.mem_singleton] at hap
        exact hm (hap ▸ hai)

/-- Coordinates scanned over a tile are exactly the pairs below (8, 8). -/
theorem mem_tileCoords (y x : Nat) : (y, x) ∈ tileCoords ↔ y < 8 ∧ x < 8 := by
  constructor
  · intro hmem
    simp only [tileCoords, List.mem_flatten, List.mem_map, List.mem_range] at hmem
    obtain ⟨l, ⟨y2, hy2, rfl⟩, hmem⟩ := hmem
    simp only [List.mem_map, List.mem_range] at hmem
    obtain ⟨x2, hx2, hx2e⟩ := hmem
    obtain ⟨rfl, rfl⟩ := Prod.mk.injEq .. ▸ hx2e
    exact ⟨hy2, hx2⟩
  · rintro ⟨hy, hx⟩
    simp only [tileCoords, List.mem_flatten, List.mem_map, List.mem_range]
    exact ⟨(List.range 8).map (fun x2 => (y, x2)), ⟨y, hy, rfl⟩,
      List.mem_map.2 ⟨x, List.mem_range.2 hx, rfl⟩⟩

/-- Membership in a tile's collected color list: exactly the opaque colors
among its 64 pixels. -/
theorem mem_collectTileColors (pix : List Nat) (width tx ty : Nat) (c : RGBA) :
    c ∈ collectTileColors pix width tx ty ↔
      ∃ x < 8, ∃ y < 8,
        pixelRGBA pix width (tx * 8 + x) (ty * 8 + y) = c ∧ c.a ≠ 0 := by
  unfold collectTileColors
  rw [mem_foldl_collectStep]
  simp only [List.not_mem_nil, false_or]
  constructor
  · rintro ⟨yx, hmem, hc⟩
    obtain ⟨hy, hx⟩ := (mem_tileCoords yx.1 yx.2).1 hmem
    exact ⟨yx.2, hx, yx.1, hy, hc⟩
  · rintro ⟨x, hx, y, hy, hc⟩
    exact ⟨(y, x), (mem_tileCoords y x).2 ⟨hy, hx⟩, hc⟩

/-- Collected tile color lists have no duplicates. -/
theorem nodup_collectTileColors (pix : List Nat) (width tx ty : Nat) :
    (collectTileColors pix width tx ty).Nodup :=
  nodup_foldl_collectStep pix width tx ty tileCoords [] List.nodup_nil

end CollectLemmas

section SortLemmas

theorem mem_insertSorted (c a : RGBA) :
    ∀ l : List RGBA, a ∈ insertSorted c l ↔ a = c ∨ a ∈ l := by
  intro l
  induction l with
  | nil => simp [insertSorted]
  | cons h t ih =>
    unfold insertSorted
    split
    · simp
    · simp only [List.mem_cons, ih]
      tauto

theorem length_insertSorted (c : RGBA) :
    ∀ l : List RGBA, (insertSorted c l).length = l.length + 1 := by
  intro l
  induction l with
  | nil => rfl
  | cons h t ih =>
    unfold insertSorted
    split
    · rfl
    · simp [ih]

theorem nodup_insertSorted (c : RGBA) :
    ∀ l : List RGBA, c ∉ l → l.Nodup → (insertSorted c l).Nodup := by
  intro l
  induction l with
  | nil => intro _ _; simp [insertSorted]
  | cons h t ih =>
    intro hc hn
    rw [List.nodup_cons] at hn
    unfold insertSorted
    split
    · exact List.nodup_cons.2 ⟨hc, List.nodup_cons.2 hn⟩
    · refine List.nodup_cons.2 ⟨?_, ih (fun hm => hc (List.mem_cons.2 (Or.inr hm))) hn.2⟩
      rw [mem_insertSorted]
      rintro (rfl | hm)
      · exact hc (List.mem_cons.2 (Or.inl rfl))
      · exact hn.1 hm

theorem mem_sortColors (a : RGBA) :
    ∀ l : List RGBA, a ∈ sortColors l ↔ a ∈ l := by
  intro l
  induction l with
  | nil => simp [sortColors]
  | cons h t ih =>
    unfold sortColors
    rw [mem_insertSorted]
    simp [ih]

theorem length_sortColors :
    ∀ l : List RGBA, (sortColors l).length = l.length := by
  intro l
  induction l with
  | nil => rfl
  | cons h t ih =>
    unfold sortColors
    rw [length_insertSorted, ih]
    rfl

theorem nodup_sortColors :
    ∀ l : List RGBA, l.Nodup → (sortColors l).Nodup := by
  intro l
  induction l with
  | nil => intro _; simp [sortColors]
  | cons h t ih =>
    intro hn
    rw [List.nodup_cons] at hn
    exact nodup_insertSorted h _ (fun hm => hn.1 ((mem_sortColors h t).1 hm)) (ih hn.2)

end SortLemmas

section BitPackingLemmas

/-- Values of the color-to-index map are always below 4 (entries are
(i + 1) & 3, the default is 0). -/
theorem buildIdxMapAux_lt_four :
    ∀ (group : List RGBA) (i : Nat) (m : RGBA → Nat),
      (∀ k, m k < 4) → ∀ k, buildIdxMapAux i group m k < 4 := by
  intro group
  induction group with
  | nil => intro i m hm k; exact hm k
  | cons c rest ih =>
    intro i m hm k
    unfold buildIdxMapAux
    refine ih (i + 1) _ ?_ k
    intro k2
    dsimp only
    split
    · exact Nat.mod_lt _ (by omega)
    · exact hm k2

theorem buildIdxMap_lt_four (group : List RGBA) (k : RGBA) :
    buildIdxMap group k < 4 :=
  buildIdxMapAux_lt_four group 0 _ (fun _ => by omega) k

/-- Pixel codes are always 2-bit values. -/
theorem tilePixelCode_lt_four (pix : List Nat) (imgW : Nat) (m : RGBA → Nat)
    (hm : ∀ k, m k < 4) (x y : Nat) :
    tilePixelCode pix imgW m x y < 4 := by
  unfold tilePixelCode
  dsimp only
  split
  · omega
  · split
    · omega
    · exact hm _

/-- OR-ing four 2-bit values at bit positions 0, 2, 4, 6 is the base-4 digit
composition (exhaustive check over the 256 digit combinations). -/
theorem pack4 (a b c d : Fin 4) :
    ((((0 ||| (a.val &&& 3) <<< (0 * 2)) ||| (b.val &&& 3) <<< (1 * 2)) |||
        (c.val &&& 3) <<< (2 * 2)) ||| (d.val &&& 3) <<< (3 * 2)) &&& 255 =
      a.val + 4 * b.val + 16 * c.val + 64 * d.val := by
  revert a b c d
  decide

/-- Reading each 2-bit field back out of the base-4 digit composition
(exhaustive check over the 256 digit combinations). -/
theorem unpack4 (a b c d : Fin 4) :
    (((a.val + 4 * b.val + 16 * c.val + 64 * d.val) >>> 0) &&& 3 = a.val) ∧
    (((a.val + 4 * b.val + 16 * c.val + 64 * d.val) >>> 2) &&& 3 = b.val) ∧
    (((a.val + 4 * b.val + 16 * c.val + 64 * d.val) >>> 4) &&& 3 = c.val) ∧
    (((a.val + 4 * b.val + 16 * c.val + 64 * d.val) >>> 6) &&& 3 = d.val) := by
  revert a b c d
  decide

/-- A row byte is the base-4 composition of its four pixel codes: code of
column x0 + startX at digit 0 (bits 0..1), each column leftward one digit
(two bits) higher. -/
theorem tileRowByte_eq (pix : List Nat) (imgW x0 y0 : Nat) (m : RGBA → Nat)
    (hm : ∀ k, m k < 4) (y startX : Nat) :
    tileRowByte pix imgW x0 y0 m y startX =
      tilePixelCode pix imgW m (x0 + (startX - 0)) (y0 + y) +
      4 * tilePixelCode pix imgW m (x0 + (startX - 1)) (y0 + y) +
      16 * tilePixelCode pix imgW m (x0 + (startX - 2)) (y0 + y) +
      64 * tilePixelCode pix imgW m (x0 + (startX - 3)) (y0 + y) := by
  have h0 := tilePixelCode_lt_four pix imgW m hm (x0 + (startX - 0)) (y0 + y)
  have h1 := tilePixelCode_lt_four pix imgW m hm (x0 + (startX - 1)) (y0 + y)
  have h2 := tilePixelCode_lt_four pix imgW m hm (x0 + (startX - 2)) (y0 + y)
  have h3 := tilePixelCode_lt_four pix imgW m hm (x0 + (startX - 3)) (y0 + y)
  have hr : List.range 4 = [0, 1, 2, 3] := rfl
  unfold tileRowByte
  rw [hr]
  simp only [List.foldl]
  exact pack4 ⟨_, h0⟩ ⟨_, h1⟩ ⟨_, h2⟩ ⟨_, h3⟩

/-- Length of the flattened row-pair list. -/
theorem length_rowPairs {α : Type} (f g : Nat → α) :
    ∀ n : Nat, (((List.range n).map (fun y => [f y, g y])).flatten).length = 2 * n := by
  intro n
  induction n with
  | zero => rfl
  | succ n ih =>
    rw [List.range_succ, List.map_append, List.flatten_append, List.length_append, ih]
    simp
    omega

/-- Element access into the flattened row-pair list. -/
theorem getD_rowPairs {α : Type} (f g : Nat → α) (n y : Nat) (hy : y < n) (d : α) :
    ((((List.range n).map (fun y => [f y, g y])).flatten).getD (y * 2) d = f y) ∧
    ((((List.range n).map (fun y => [f y, g y])).flatten).getD (y * 2 + 1) d = g y) := by
  induction n with
  | zero => omega
  | succ n ih =>
    rw [List.range_succ, List.map_append, List.flatten_append]
    rcases Nat.lt_or_ge y n with hlt | hge
    · have hl := length_rowPairs f g n
      constructor
      · rw [List.getD_append _ _ _ _ (by omega), (ih hlt).1]
      · rw [List.getD_append _ _ _ _ (by omega), (ih hlt).2]
    · have hyn : y = n := by omega
      subst hyn
      have hl := length_rowPairs f g y
      constructor
      · rw [List.getD_append_right _ _ _ _ (by omega), hl]
        have e0 : y * 2 - 2 * y = 0 := by omega
        rw [e0]
        rfl
      · rw [List.getD_append_right _ _ _ _ (by omega), hl]
        have e1 : y * 2 + 1 - 2 * y = 1 := by omega
        rw [e1]
        rfl

/-- Decoding the encoded tile with the documented layout recovers each
pixel's 2-bit code: the byte for row y and the block containing column x,
shifted by two bits per column from the block's right edge. -/
theorem decodePixelIdx_encode (pix : List Nat) (imgW x0 y0 : Nat)
    (group : List RGBA) (x y : Nat) (hx : x < 8) (hy : y < 8) :
    decodePixelIdx (encodeNgpcTile2bppLayered pix imgW x0 y0 group) x y =
      tilePixelCode pix imgW (buildIdxMap group) (x0 + x) (y0 + y) := by
  have hm : ∀ k, buildIdxMap group k < 4 := buildIdxMap_lt_four group
  have h0 := tilePixelCode_lt_four pix imgW _ hm (x0 + 7) (y0 + y)
  have h1 := tilePixelCode_lt_four pix imgW _ hm (x0 + 6) (y0 + y)
  have h2 := tilePixelCode_lt_four pix imgW _ hm (x0 + 5) (y0 + y)
  have h3 := tilePixelCode_lt_four pix imgW _ hm (x0 + 4) (y0 + y)
  have h4 := tilePixelCode_lt_four pix imgW _ hm (x0 + 3) (y0 + y)
  have h5 := tilePixelCode_lt_four pix imgW _ hm (x0 + 2) (y0 + y)
  have h6 := tilePixelCode_lt_four pix imgW _ hm (x0 + 1) (y0 + y)
  have h7 := tilePixelCode_lt_four pix imgW _ hm (x0 + 0) (y0 + y)
  unfold decodePixelIdx encodeNgpcTile2bppLayered
  by_cases hx4 : 4 ≤ x
  · simp only [hx4, if_true, Nat.add_zero]
    rw [(getD_rowPairs
          (fun y => tileRowByte pix imgW x0 y0 (buildIdxMap group) y 7)
          (fun y => tileRowByte pix imgW x0 y0 (buildIdxMap group) y 3) 8 y hy 0).1,
        tileRowByte_eq pix imgW x0 y0 _ hm y 7]
    interval_cases x
    · have hs : pixelBitShift 4 = 6 := rfl
      rw [hs]
      exact (unpack4 ⟨_, h0⟩ ⟨_, h1⟩ ⟨_, h2⟩ ⟨_, h3⟩).2.2.2
    · have hs : pixelBitShift 5 = 4 := rfl
      rw [hs]
      exact (unpack4 ⟨_, h0⟩ ⟨_, h1⟩ ⟨_, h2⟩ ⟨_, h3⟩).2.2.1
    · have hs : pixelBitShift 6 = 2 := rfl
      rw [hs]
      exact (unpack4 ⟨_, h0⟩ ⟨_, h1⟩ ⟨_, h2⟩ ⟨_, h3⟩).2.1
    · have hs : pixelBitShift 7 = 0 := rfl
      rw [hs]
      exact (unpack4 ⟨_, h0⟩ ⟨_, h1⟩ ⟨_, h2⟩ ⟨_, h3⟩).1
  · simp only [hx4, if_false]
    rw [(getD_rowPairs
          (fun y => tileRowByte pix imgW x0 y0 (buildIdxMap group) y 7)
          (fun y => tileRowByte pix imgW x0 y0 (buildIdxMap group) y 3) 8 y hy 0).2,
        tileRowByte_eq pix imgW x0 y0 _ hm y 3]
    interval_cases x
    · have hs : pixelBitShift 0 = 6 := rfl
      rw [hs]
      exact (unpack4 ⟨_, h4⟩ ⟨_, h5⟩ ⟨_, h6⟩ ⟨_, h7⟩).2.2.2
    · have hs : pixelBitShift 1 = 4 := rfl
      rw [hs]
      exact (unpack4 ⟨_, h4⟩ ⟨_, h5⟩ ⟨_, h6⟩ ⟨_, h7⟩).2.2.1
    · have hs : pixelBitShift 2 = 2 := rfl
      rw [hs]
      exact (unpack4 ⟨_, h4⟩ ⟨_, h5⟩ ⟨_, h6⟩ ⟨_, h7⟩).2.1
    · have hs : pixelBitShift 3 = 0 := rfl
      rw [hs]
      exact (unpack4 ⟨_, h4⟩ ⟨_, h5⟩ ⟨_, h6⟩ ⟨_, h7⟩).1

end BitPackingLemmas

section IndexMapLemmas

/-- Keys not in the group are absent from the map (JS undefined, code 0). -/
theorem buildIdxMapAux_not_mem (k : RGBA) :
    ∀ (group : List RGBA) (i : Nat) (m : RGBA → Nat),
      k ∉ group → buildIdxMapAux i group m k = m k := by
  intro group
  induction group with
  | nil => intro i m _; rfl
  | cons c rest ih =>
    intro i m hk
    unfold buildIdxMapAux
    rw [ih (i + 1) _ (fun hm => hk (List.mem_cons.2 (Or.inr hm)))]
    show (if k = c then (i + 1) % 4 else m k) = m k
    rw [if_neg (fun he => hk (List.mem_cons.2 (Or.inl he)))]

/-- On a duplicate-free group, the map binds the entry at position p to
(i + p + 1) & 3, where i is the starting loop counter. -/
theorem buildIdxMapAux_getElem :
    ∀ (group : List RGBA), group.Nodup →
      ∀ (i : Nat) (m : RGBA → Nat) (p : Nat) (hp : p < group.length),
        buildIdxMapAux i group m (group.get ⟨p, hp⟩) = (i + p + 1) % 4 := by
  intro group
  induction group with
  | nil => intro _ i m p hp; simp at hp
  | cons c rest ih =>
    intro hn i m p hp
    rw [List.nodup_cons] at hn
    match p with
    | 0 =>
      show buildIdxMapAux i (c :: rest) m c = (i + 0 + 1) % 4
      unfold buildIdxMapAux
      rw [buildIdxMapAux_not_mem c rest (i + 1) _ hn.1]
      simp
    | p + 1 =>
      show buildIdxMapAux i (c :: rest) m (rest.get ⟨p, by simpa using hp⟩) = _
      unfold buildIdxMapAux
      rw [ih hn.2 (i + 1) _ p (by simpa using hp)]
      omega

/-- Map value of the group entry at position p: (p + 1) & 3. -/
theorem buildIdxMap_getElem (group : List RGBA) (hn : group.Nodup)
    (p : Nat) (hp : p < group.length) :
    buildIdxMap group (group.get ⟨p, hp⟩) = (p + 1) % 4 := by
  have h := buildIdxMapAux_getElem group hn 0 (fun _ => 0) p hp
  rw [Nat.zero_add] at h
  exact h

/-- Map value of an absent key: 0. -/
theorem buildIdxMap_not_mem (group : List RGBA) (k : RGBA) (hk : k ∉ group) :
    buildIdxMap group k = 0 :=
  buildIdxMapAux_not_mem k group 0 _ hk

end IndexMapLemmas

section PosOfLemmas

theorem posOf_lt (c : RGBA) :
    ∀ l : List RGBA, c ∈ l → posOf c l < l.length := by
  intro l
  induction l with
  | nil => intro h; cases h
  | cons h t ih =>
    intro hc
    unfold posOf
    split
    · simp
    · next hne =>
      have : c ∈ t := by
        rcases List.mem_cons.1 hc with rfl | hm
        · exact absurd rfl hne
        · exact hm
      simpa using ih this

theorem posOf_getElem? (c : RGBA) :
    ∀ l : List RGBA, c ∈ l → l[posOf c l]? = some c := by
  intro l
  induction l with
  | nil => intro h; cases h
  | cons h t ih =>
    intro hc
    by_cases he : h = c
    · simp [posOf, he]
    · have hm : c ∈ t := by
        rcases List.mem_cons.1 hc with rfl | hm
        · exact absurd rfl he
        · exact hm
      have hpos : posOf c (h :: t) = posOf c t + 1 := by simp [posOf, he]
      rw [hpos, List.getElem?_cons_succ]
      exact ih hm

/-- On a duplicate-free list, posOf inverts getElem. -/
theorem posOf_getElem (l : List RGBA) (hn : l.Nodup) (c : RGBA)
    (p : Nat) (hp : p < l.length) (he : l.get ⟨p, hp⟩ = c) :
    posOf c l = p := by
  have hc : c ∈ l := he ▸ List.get_mem l p hp
  have h1 := posOf_getElem? c l hc
  have hplt := posOf_lt c l hc
  rw [List.getElem?_eq_getElem hplt] at h1
  have h2 : l[posOf c l] = l[p] := by
    rw [Option.some.inj h1]
    exact he.symm
  exact (List.Nodup.getElem_inj_iff hn).mp h2

end PosOfLemmas

section ChunkLemmas

/-- Membership in the chunk of layer l of a list: exactly the elements whose
position j satisfies j / 3 = l. -/
theorem mem_chunk_iff (L : List RGBA) (l : Nat) (x : RGBA) :
    x ∈ (L.drop (3 * l)).take 3 ↔
      ∃ (j : Nat) (hj : j < L.length), L[j] = x ∧ j / 3 = l := by
  rw [List.mem_iff_getElem]
  constructor
  · rintro ⟨i, hi, he⟩
    have hi2 : i < 3 ∧ 3 * l + i < L.length := by
      simp [List.length_take, List.length_drop] at hi
      omega
    refine ⟨3 * l + i, hi2.2, ?_, by omega⟩
    rw [← he, List.getElem_take .., List.getElem_drop ..]
  · rintro ⟨j, hj, he, hdiv⟩
    have hj3 : j % 3 < 3 := Nat.mod_lt _ (by omega)
    have hlen : j % 3 < ((L.drop (3 * l)).take 3).length := by
      simp [List.length_take, List.length_drop]
      omega
    refine ⟨j % 3, hlen, ?_⟩
    have hq : ((L.drop (3 * l)).take 3)[j % 3]? = L[j]? := by
      rw [List.getElem?_take, if_pos hj3, List.getElem?_drop,
        show 3 * l + j % 3 = j by omega]
    rw [List.getElem?_eq_getElem hlen, List.getElem?_eq_getElem hj] at hq
    rw [Option.some.inj hq, he]

/-- Chunk content at explicit positions: element j of L is element j % 3 of
chunk j / 3 (Option form). -/
theorem chunk_getElem? (L : List RGBA) (j : Nat) :
    ((L.drop (3 * (j / 3))).take 3)[j % 3]? = L[j]? := by
  have hj3 : j % 3 < 3 := Nat.mod_lt _ (by omega)
  rw [List.getElem?_take, if_pos hj3, List.getElem?_drop,
    show 3 * (j / 3) + j % 3 = j by omega]

/-- On a duplicate-free list an element sits in exactly one chunk. -/
theorem chunk_unique (L : List RGBA) (hn : L.Nodup) (x : RGBA) (l1 l2 : Nat)
    (h1 : x ∈ (L.drop (3 * l1)).take 3) (h2 : x ∈ (L.drop (3 * l2)).take 3) :
    l1 = l2 := by
  obtain ⟨j1, hj1, he1, hd1⟩ := (mem_chunk_iff L l1 x).1 h1
  obtain ⟨j2, hj2, he2, hd2⟩ := (mem_chunk_iff L l2 x).1 h2
  have heq : L[j1] = L[j2] := by rw [he1, he2]
  have := (List.Nodup.getElem_inj_iff hn).mp heq
  omega

/-- Chunks past ceil(length / 3) are empty. -/
theorem chunk_empty (L : List RGBA) (l : Nat) (hl : (L.length + 2) / 3 ≤ l) :
    (L.drop (3 * l)).take 3 = [] := by
  have : L.length ≤ 3 * l := by omega
  rw [List.drop_eq_nil_of_le this, List.take_nil]

/-- Chunks are sublists, hence duplicate-free when L is. -/
theorem chunk_nodup (L : List RGBA) (hn : L.Nodup) (l : Nat) :
    ((L.drop (3 * l)).take 3).Nodup :=
  ((List.take_sublist _ _).trans (List.drop_sublist _ _)).nodup hn

/-- Chunks have at most 3 elements. -/
theorem chunk_length_le (L : List RGBA) (l : Nat) :
    ((L.drop (3 * l)).take 3).length ≤ 3 := by
  simp [List.length_take]

end ChunkLemmas

section AccessLemmas

/-- getD into a mapped range, in bounds. -/
theorem getD_range_map {α : Type} (f : Nat → α) (n i : Nat) (d : α) (h : i < n) :
    ((List.range n).map f).getD i d = f i := by
  rw [List.getD, List.get?_eq_getElem?, List.getElem?_map, List.getElem?_range h]
  rfl

/-- A fold of max is at least its seed. -/
theorem foldl_max_le_seed : ∀ (l : List Nat) (a : Nat), a ≤ l.foldl max a := by
  intro l
  induction l with
  | nil => intro a; exact Nat.le_refl a
  | cons h t ih =>
    intro a
    exact le_trans (Nat.le_max_left a h) (ih (max a h))

/-- A fold of max dominates every element. -/
theorem le_foldl_max : ∀ (l : List Nat) (a x : Nat), x ∈ l → x ≤ l.foldl max a := by
  intro l
  induction l with
  | nil => intro a x h; cases h
  | cons h t ih =>
    intro a x hx
    rcases List.mem_cons.1 hx with rfl | hm
    · exact le_trans (Nat.le_max_right a x) (foldl_max_le_seed t (max a x))
    · exact ih (max a h) x hm

/-- A fold of max is bounded by any bound of the seed and all elements. -/
theorem foldl_max_le (m : Nat) :
    ∀ (l : List Nat) (a : Nat), a ≤ m → (∀ x ∈ l, x ≤ m) → l.foldl max a ≤ m := by
  intro l
  induction l with
  | nil => intro a ha _; exact ha
  | cons h t ih =>
    intro a ha hall
    refine ih (max a h) ?_ (fun x hx => hall x (List.mem_cons.2 (Or.inr hx)))
    exact max_le ha (hall h (List.mem_cons.2 (Or.inl rfl)))

/-- Folding max from seed (max a b) splits into max against the fold from b. -/
theorem foldl_max_factor_seed :
    ∀ (l : List Nat) (a b : Nat), l.foldl max (max a b) = max a (l.foldl max b) := by
  intro l
  induction l with
  | nil => intro a b; rfl
  | cons h t ih =>
    intro a b
    show t.foldl max (max (max a b) h) = max a (t.foldl max (max b h))
    rw [max_assoc, ih]

end AccessLemmas

section PaletteBankLemmas

/-- A successful palette search returns the index of the first equal entry. -/
theorem palSearch_some_spec :
    ∀ (bank : List (List Nat)) (pal : List Nat) (i : Nat),
      palSearch bank pal = some i →
      i < bank.length ∧ bank.getD i [] = pal ∧ ∀ j < i, bank.getD j [] ≠ pal := by
  intro bank
  induction bank with
  | nil => intro pal i h; cases h
  | cons p rest ih =>
    intro pal i h
    unfold palSearch at h
    by_cases he : p = pal
    · rw [if_pos he] at h
      have hi : i = 0 := (Option.some.inj h).symm
      subst hi
      exact ⟨by simp, he, by omega⟩
    · rw [if_neg he] at h
      cases hr : palSearch rest pal with
      | none => rw [hr] at h; cases h
      | some i2 =>
        rw [hr] at h
        have hi : i = i2 + 1 := by simpa using h.symm
        subst hi
        obtain ⟨hlt, hgd, hfirst⟩ := ih pal i2 hr
        refine ⟨by simp; omega, hgd, ?_⟩
        intro j hj
        match j with
        | 0 => exact fun hc => he hc
        | j + 1 => exact hfirst j (by omega)

/-- A failed palette search means the palette is not in the bank. -/
theorem palSearch_eq_none :
    ∀ (bank : List (List Nat)) (pal : List Nat),
      palSearch bank pal = none ↔ pal ∉ bank := by
  intro bank
  induction bank with
  | nil => intro pal; simp [palSearch]
  | cons p rest ih =>
    intro pal
    unfold palSearch
    by_cases he : p = pal
    · simp [he]
    · rw [if_neg he]
      constructor
      · intro h hmem
        have h2 : palSearch rest pal = none := by
          cases hh : palSearch rest pal with
          | none => rfl
          | some v => rw [hh] at h; cases h
        rcases List.mem_cons.1 hmem with he2 | hm
        · exact he he2.symm
        · exact ((ih pal).mp h2) hm
      · intro h
        rw [(ih pal).mpr (fun hm => h (List.mem_cons.2 (Or.inr hm)))]
        rfl

/-- The interning fold: when it succeeds, the produced palette ids are valid
indices of the final bank, each pointing at the palette of its tile group;
the bank only grows (existing entries and their positions are preserved) and
never exceeds the capacity when it started within it. -/
theorem internLayer_spec (maxPals : Nat) :
    ∀ (gs : List (List RGBA)) (bank0 bankF : List (List Nat)) (ids : List Nat),
      internLayer maxPals gs bank0 = some (bankF, ids) →
      ids.length = gs.length ∧
      bank0.length ≤ bankF.length ∧
      (∀ j < bank0.length, bankF.getD j [] = bank0.getD j []) ∧
      (bank0.length ≤ maxPals → bankF.length ≤ maxPals) ∧
      (∀ j < gs.length,
        ids.getD j 0 < bankF.length ∧
        bankF.getD (ids.getD j 0) [] = buildTilePaletteRgb444 (gs.getD j [])) := by
  intro gs
  induction gs with
  | nil =>
    intro bank0 bankF ids h
    unfold internLayer at h
    simp only [Option.some.injEq, Prod.mk.injEq] at h
    obtain ⟨rfl, rfl⟩ := h
    refine ⟨rfl, Nat.le_refl _, fun j _ => rfl, fun h => h, ?_⟩
    intro j hj
    simp at hj
  | cons g rest ih =>
    intro bank0 bankF ids h
    unfold internLayer at h
    cases hfa : findOrAddPalette bank0 (buildTilePaletteRgb444 g) maxPals with
    | mk id bank2 =>
      rw [hfa] at h
      dsimp only at h
      by_cases hneg : id < 0
      · rw [if_pos hneg] at h; cases h
      · rw [if_neg hneg] at h
        cases hrec : internLayer maxPals rest bank2 with
        | none => rw [hrec] at h; cases h
        | some v =>
          cases v with
          | mk bankF2 ids2 =>
            rw [hrec] at h
            simp only [Option.some.injEq, Prod.mk.injEq] at h
            obtain ⟨rfl, rfl⟩ := h
            obtain ⟨ihlen, ihle, ihpres, ihcap, ihj⟩ := ih bank2 bankF2 ids2 hrec
            have hstep :
                bank0.length ≤ bank2.length ∧
                (∀ j < bank0.length, bank2.getD j [] = bank0.getD j []) ∧
                (bank0.length ≤ maxPals → bank2.length ≤ maxPals) ∧
                id.toNat < bank2.length ∧
                bank2.getD id.toNat [] = buildTilePaletteRgb444 g := by
              unfold findOrAddPalette at hfa
              cases hps : palSearch bank0 (buildTilePaletteRgb444 g) with
              | some i =>
                rw [hps] at hfa
                simp only [Prod.mk.injEq] at hfa
                obtain ⟨hid, hbk⟩ := hfa
                subst hbk
                obtain ⟨hlt, hgd, _⟩ := palSearch_some_spec _ _ _ hps
                refine ⟨Nat.le_refl _, fun j _ => rfl, fun h => h, ?_, ?_⟩
                · rw [← hid]; simpa using hlt
                · rw [← hid]; simpa using hgd
              | none =>
                rw [hps] at hfa
                by_cases hfull : bank0.length ≥ maxPals
                · rw [if_pos hfull] at hfa
                  simp only [Prod.mk.injEq] at hfa
                  obtain ⟨hid, hbk⟩ := hfa
                  have : id < 0 := by rw [← hid]; decide
                  exact absurd this hneg
                · rw [if_neg hfull] at hfa
                  simp only [Prod.mk.injEq] at hfa
                  obtain ⟨hid, hbk⟩ := hfa
                  subst hbk
                  have htn : id.toNat = bank0.length := by rw [← hid]; simp
                  refine ⟨by simp, ?_, ?_, ?_, ?_⟩
                  · intro j hj
                    rw [List.getD_append _ _ _ _ hj]
                  · intro h
                    simp only [List.length_append, List.length_singleton]
                    omega
                  · simp [htn]
                  · rw [htn, List.getD_append_right _ _ _ _ (Nat.le_refl _)]
                    simp
            refine ⟨by simp [ihlen], le_trans hstep.1 ihle, ?_, ?_, ?_⟩
            · intro j hj
              rw [ihpres j (by omega), hstep.2.1 j hj]
            · intro h
              exact ihcap (hstep.2.2.1 h)
            · intro j hj
              match j with
              | 0 =>
                refine ⟨lt_of_lt_of_le hstep.2.2.2.1 ihle, ?_⟩
                show bankF2.getD id.toNat [] = buildTilePaletteRgb444 g
                rw [ihpres id.toNat hstep.2.2.2.1, hstep.2.2.2.2]
              | j + 1 =>
                exact ihj j (by simpa using hj)

end PaletteBankLemmas

section Pass2Lemmas

/-- A successful pass 2 produced, for each processed layer, the interned bank,
the palette-id table and the encoded tiles of that layer. -/
theorem pass2Layers_ok_spec (frames : List (List Nat))
    (width tilesX TPF F maxPals : Nat) (plan : Plan) :
    ∀ (ls : List Nat) (banks : List (List (List Nat))) (idss : List (List Nat))
      (tiless : List (List (List Nat))),
      pass2Layers frames width tilesX TPF F maxPals plan ls = .ok (banks, idss, tiless) →
      ∀ k < ls.length,
        ∃ bank ids,
          internLayer maxPals (layerGroupsSeq plan F TPF (ls.getD k 0)) [] = some (bank, ids) ∧
          banks.getD k [] = bank ∧ idss.getD k [] = ids ∧
          tiless.getD k [] = layerTilesSeq frames width tilesX TPF plan F (ls.getD k 0) := by
  intro ls
  induction ls with
  | nil => intro banks idss tiless _ k hk; simp at hk
  | cons l rest ih =>
    intro banks idss tiless h k hk
    unfold pass2Layers at h
    cases hint : internLayer maxPals (layerGroupsSeq plan F TPF l) [] with
    | none => rw [hint] at h; cases h
    | some v =>
      cases v with
      | mk bank ids =>
        rw [hint] at h
        dsimp only at h
        cases hrec : pass2Layers frames width tilesX TPF F maxPals plan rest with
        | error e => rw [hrec] at h; cases h
        | ok triple =>
          obtain ⟨banks2, idss2, tiless2⟩ := triple
          rw [hrec] at h
          dsimp only at h
          simp only [Except.ok.injEq, Prod.mk.injEq] at h
          obtain ⟨rfl, rfl, rfl⟩ := h
          match k with
          | 0 => exact ⟨bank, ids, hint, rfl, rfl, rfl⟩
          | k + 1 => exact ih banks2 idss2 tiless2 hrec k (by simpa using hk)

/-- A pass-2 failure carries the configured capacity and a layer from the
processed list whose interning genuinely failed. -/
theorem pass2Layers_error_spec (frames : List (List Nat))
    (width tilesX TPF F maxPals : Nat) (plan : Plan) :
    ∀ (ls : List Nat) (e : POErr),
      pass2Layers frames width tilesX TPF F maxPals plan ls = .error e →
      e.capacity = maxPals ∧ e.layer ∈ ls ∧
      internLayer maxPals (layerGroupsSeq plan F TPF e.layer) [] = none := by
  intro ls
  induction ls with
  | nil => intro e h; cases h
  | cons l rest ih =>
    intro e h
    unfold pass2Layers at h
    cases hint : internLayer maxPals (layerGroupsSeq plan F TPF l) [] with
    | none =>
      rw [hint] at h
      simp only [Except.error.injEq] at h
      subst h
      exact ⟨rfl, List.mem_cons.2 (Or.inl rfl), hint⟩
    | some v =>
      cases v with
      | mk bank ids =>
        rw [hint] at h
        dsimp only at h
        cases hrec : pass2Layers frames width tilesX TPF F maxPals plan rest with
        | error e2 =>
          rw [hrec] at h
          simp only [Except.error.injEq] at h
          obtain ⟨h1, h2, h3⟩ := ih e2 hrec
          rw [← h]
          exact ⟨h1, List.mem_cons.2 (Or.inr h2), h3⟩
        | ok triple =>
          obtain ⟨banks2, idss2, tiless2⟩ := triple
          rw [hrec] at h
          cases h

end Pass2Lemmas

section PlanLemmas

/-- Characterization of a successful plan: no tile overflowed, the layer
count is the seeded running maximum of the chunk counts, and the groups table
is the chunked, sorted color lists. -/
theorem buildLayeredPlan_ok_spec (frames : List (List Nat))
    (width height maxLayers : Nat) (plan : Plan)
    (h : buildLayeredPlan frames width height maxLayers = .ok plan) :
    (∀ i < frames.length * (width / 8 * (height / 8)),
      chunksAtIdx frames width (width / 8) (width / 8 * (height / 8)) i ≤ maxLayers) ∧
    plan.layerCount =
      ((List.range (frames.length * (width / 8 * (height / 8)))).map
        (chunksAtIdx frames width (width / 8) (width / 8 * (height / 8)))).foldl max 1 ∧
    plan.groups =
      (List.range plan.layerCount).map (fun l =>
        (List.range frames.length).map (fun fi =>
          (List.range (width / 8 * (height / 8))).map (fun t =>
            tileGroupAt (frames.getD fi []) width (t % (width / 8)) (t / (width / 8)) l))) := by
  unfold buildLayeredPlan at h
  dsimp only at h
  cases hf : (List.range (frames.length * (width / 8 * (height / 8)))).find?
      (fun i => decide (maxLayers <
        chunksAtIdx frames width (width / 8) (width / 8 * (height / 8)) i)) with
  | some i => rw [hf] at h; cases h
  | none =>
    rw [hf] at h
    simp only [Except.ok.injEq] at h
    subst h
    refine ⟨?_, rfl, rfl⟩
    intro i hi
    have := List.find?_eq_none.mp hf i (List.mem_range.2 hi)
    simpa using this

/-- Characterization of a failed plan: the scan found an overflowing tile and
the error is built from the first one, in scan order. -/
theorem buildLayeredPlan_error_spec (frames : List (List Nat))
    (width height maxLayers : Nat) (e : LOErr)
    (h : buildLayeredPlan frames width height maxLayers = .error e) :
    ∃ i < frames.length * (width / 8 * (height / 8)),
      maxLayers < chunksAtIdx frames width (width / 8) (width / 8 * (height / 8)) i ∧
      e = { frame := i / (width / 8 * (height / 8))
            tx := (i % (width / 8 * (height / 8))) % (width / 8)
            ty := (i % (width / 8 * (height / 8))) / (width / 8)
            colorCount :=
              (collectTileColors (frames.getD (i / (width / 8 * (height / 8))) []) width
                ((i % (width / 8 * (height / 8))) % (width / 8))
                ((i % (width / 8 * (height / 8))) / (width / 8))).length
            budget := maxLayers * 3 } := by
  unfold buildLayeredPlan at h
  dsimp only at h
  cases hf : (List.range (frames.length * (width / 8 * (height / 8)))).find?
      (fun i => decide (maxLayers <
        chunksAtIdx frames width (width / 8) (width / 8 * (height / 8)) i)) with
  | none =>
    rw [hf] at h; cases h
  | some i =>
    rw [hf] at h
    simp only [Except.error.injEq] at h
    subst h
    have hp := List.find?_some hf
    have hmem := List.mem_of_find?_eq_some hf
    refine ⟨i, List.mem_range.1 hmem, by simpa using hp, rfl⟩

/-- The converse: an overflowing tile makes the plan fail. -/
theorem buildLayeredPlan_isError_of_overflow (frames : List (List Nat))
    (width height maxLayers : Nat) (i : Nat)
    (hi : i < frames.length * (width / 8 * (height / 8)))
    (hover : maxLayers < chunksAtIdx frames width (width / 8) (width / 8 * (height / 8)) i) :
    ∃ e, buildLayeredPlan frames width height maxLayers = .error e := by
  unfold buildLayeredPlan
  dsimp only
  cases hf : (List.range (frames.length * (width / 8 * (height / 8)))).find?
      (fun i => decide (maxLayers <
        chunksAtIdx frames width (width / 8) (width / 8 * (height / 8)) i)) with
  | some j => exact ⟨_, rfl⟩
  | none =>
    have := List.find?_eq_none.mp hf i (List.mem_range.2 hi)
    simp at this
    omega

end PlanLemmas

section CompositeLemmas

/-- Folding the layer-over-layer draw over layers that are all transparent at
the pixel leaves the accumulator unchanged. -/
theorem compositeFold_const {α : Type} (idx : Nat → Nat) (val : Nat → α) (v : α) :
    ∀ l : List Nat, (∀ x ∈ l, idx x ≠ 0 → val x = v) →
      l.foldl (fun acc x => if idx x = 0 then acc else some (val x)) (some v) = some v := by
  intro l
  induction l with
  | nil => intro _; rfl
  | cons h t ih =>
    intro hall
    rw [List.foldl_cons]
    by_cases hz : idx h = 0
    · rw [if_pos hz]
      exact ih (fun x hx => hall x (List.mem_cons.2 (Or.inr hx)))
    · rw [if_neg hz, hall h (List.mem_cons.2 (Or.inl rfl)) hz]
      exact ih (fun x hx => hall x (List.mem_cons.2 (Or.inr hx)))

/-- When every layer is transparent at the pixel the composite is empty. -/
theorem compositeFold_none {α : Type} (idx : Nat → Nat) (val : Nat → α) :
    ∀ l : List Nat, (∀ x ∈ l, idx x = 0) →
      l.foldl (fun acc x => if idx x = 0 then acc else some (val x)) none = none := by
  intro l
  induction l with
  | nil => intro _; rfl
  | cons h t ih =>
    intro hall
    rw [List.foldl_cons, if_pos (hall h (List.mem_cons.2 (Or.inl rfl)))]
    exact ih (fun x hx => hall x (List.mem_cons.2 (Or.inr hx)))

/-- When exactly one layer is opaque at the pixel, the composite shows that
layer's value. -/
theorem compositeFold_unique {α : Type} (idx : Nat → Nat) (val : Nat → α) (v : α) :
    ∀ (l : List Nat) (l0 : Nat),
      l0 ∈ l → idx l0 ≠ 0 → val l0 = v →
      (∀ x ∈ l, x ≠ l0 → idx x = 0) →
      l.foldl (fun acc x => if idx x = 0 then acc else some (val x)) none = some v := by
  intro l
  induction l with
  | nil => intro l0 hmem; cases hmem
  | cons h t ih =>
    intro l0 hmem hl0 hv hothers
    rw [List.foldl_cons]
    by_cases he : h = l0
    · subst he
      rw [if_neg hl0, hv]
      refine compositeFold_const idx val v t ?_
      intro x hx hnz
      by_cases hxh : x = h
      · rw [hxh, hv]
      · exact absurd (hothers x (List.mem_cons.2 (Or.inr hx)) hxh) hnz
    · rw [if_pos (hothers h (List.mem_cons.2 (Or.inl rfl)) he)]
      have hmem2 : l0 ∈ t := by
        rcases List.mem_cons.1 hmem with he2 | hm
        · exact absurd he2.symm he
        · exact hm
      exact ih l0 hmem2 hl0 hv
        (fun x hx => hothers x (List.mem_cons.2 (Or.inr hx)))

end CompositeLemmas

section EncodeAllLemmas

/-- Decomposition of a successful export: valid dimensions, a successful
plan, and a successful pass 2 over layers 0..layerCount-1 whose tables are
the output's. -/
theorem encodeAll_ok_spec (frames : List (List Nat))
    (width height maxLayers maxPals : Nat) (out : NgpcOutput)
    (h : encodeAll frames width height maxLayers maxPals = .ok out) :
    width % 8 = 0 ∧ height % 8 = 0 ∧
    ∃ plan, buildLayeredPlan frames width height maxLayers = .ok plan ∧
      out.layerCount = plan.layerCount ∧
      out.tilesX = width / 8 ∧ out.tilesY = height / 8 ∧
      pass2Layers frames width (width / 8) ((width / 8) * (height / 8))
        frames.length maxPals plan (List.range plan.layerCount) =
        .ok (out.banks, out.palIds, out.tiles) := by
  unfold encodeAll at h
  split at h
  · next hcond =>
    cases hp : buildLayeredPlan frames width height maxLayers with
    | error e => rw [hp] at h; exact absurd h (by simp)
    | ok plan =>
      rw [hp] at h
      dsimp only at h
      cases hp2 : pass2Layers frames width (width / 8) ((width / 8) * (height / 8))
          frames.length maxPals plan (List.range plan.layerCount) with
      | error e => rw [hp2] at h; cases h
      | ok triple =>
        obtain ⟨banks, idss, tiless⟩ := triple
        rw [hp2] at h
        dsimp only at h
        simp only [Except.ok.injEq] at h
        subst h
        exact ⟨hcond.1, hcond.2, plan, rfl, rfl, rfl, rfl, hp2⟩
  · cases h

end EncodeAllLemmas

section AccessArithmetic

/-- Splitting a flattened index a * n + b with b < n. -/
theorem indexPack_div_mod (a b n : Nat) (hb : b < n) :
    (a * n + b) / n = a ∧ (a * n + b) % n = b := by
  constructor
  · rw [Nat.mul_comm a n, Nat.mul_add_div (by omega), Nat.div_eq_of_lt hb]
    omega
  · rw [Nat.mul_comm a n, Nat.mul_add_mod, Nat.mod_eq_of_lt hb]

/-- A tile index ty * X + tx is below X * Y. -/
theorem tile_index_lt (tx ty X Y : Nat) (hx : tx < X) (hy : ty < Y) :
    ty * X + tx < X * Y := by
  calc ty * X + tx < (ty + 1) * X := by
        rw [Nat.succ_mul]
        omega
    _ ≤ Y * X := Nat.mul_le_mul_right X hy
    _ = X * Y := Nat.mul_comm Y X

/-- getD into a range, in bounds. -/
theorem getD_range (n i d : Nat) (h : i < n) : (List.range n).getD i d = i := by
  rw [List.getD, List.get?_eq_getElem?, List.getElem?_range h]
  rfl

end AccessArithmetic

section LayerAccess

/-- Access into the tables of a successful export at layer l, frame fi and
pixel (px, py): the decoded pixel index is the pixel's 2-bit code for that
layer's group of the pixel's tile, and the palette referenced through the
tile's interned palette id is the palette built from that group. -/
theorem encodeAll_layer_access (frames : List (List Nat))
    (width height maxLayers maxPals : Nat) (out : NgpcOutput)
    (h : encodeAll frames width height maxLayers maxPals = .ok out)
    (l fi px py : Nat) (hl : l < out.layerCount) (hfi : fi < frames.length)
    (hpx : px < width) (hpy : py < height) :
    decodePixelIdx ((out.tiles.getD l []).getD
        (fi * (out.tilesX * out.tilesY) + ((py / 8) * out.tilesX + px / 8)) [])
      (px % 8) (py % 8) =
      tilePixelCode (frames.getD fi []) width
        (buildIdxMap (tileGroupAt (frames.getD fi []) width (px / 8) (py / 8) l)) px py ∧
    (out.banks.getD l []).getD
        ((out.palIds.getD l []).getD
          (fi * (out.tilesX * out.tilesY) + ((py / 8) * out.tilesX + px / 8)) 0) [] =
      buildTilePaletteRgb444 (tileGroupAt (frames.getD fi []) width (px / 8) (py / 8) l) := by
  obtain ⟨hw8, hh8, plan, hplan, hlc, htxe, htye, hp2⟩ :=
    encodeAll_ok_spec frames width height maxLayers maxPals out h
  obtain ⟨hchle, hlce, hgroups⟩ :=
    buildLayeredPlan_ok_spec frames width height maxLayers plan hplan
  -- abbreviations and bounds
  have hX0 : 0 < width / 8 := by omega
  have hY0 : 0 < height / 8 := by omega
  have htx : px / 8 < width / 8 := by omega
  have hty : py / 8 < height / 8 := by omega
  have ht : (py / 8) * (width / 8) + px / 8 < (width / 8) * (height / 8) :=
    tile_index_lt (px / 8) (py / 8) (width / 8) (height / 8) htx hty
  have hTPF0 : 0 < (width / 8) * (height / 8) := by positivity
  have hI : fi * ((width / 8) * (height / 8)) + ((py / 8) * (width / 8) + px / 8) <
      frames.length * ((width / 8) * (height / 8)) := by
    have h2 := tile_index_lt ((py / 8) * (width / 8) + px / 8) fi
      ((width / 8) * (height / 8)) frames.length ht hfi
    rwa [Nat.mul_comm ((width / 8) * (height / 8)) frames.length] at h2
  have hIdm := indexPack_div_mod fi ((py / 8) * (width / 8) + px / 8)
    ((width / 8) * (height / 8)) ht
  have htdm := indexPack_div_mod (py / 8) (px / 8) (width / 8) htx
  have hlplan : l < plan.layerCount := by omega
  -- pass-2 layer tables
  obtain ⟨bank, ids, hint, hbk, hids, htl⟩ :=
    pass2Layers_ok_spec frames width (width / 8) ((width / 8) * (height / 8))
      frames.length maxPals plan (List.range plan.layerCount)
      out.banks out.palIds out.tiles hp2 l (by rw [List.length_range]; omega)
  rw [getD_range plan.layerCount l 0 hlplan] at hint htl
  -- the group of this tile at layer l
  have hgrp : planGroupAt plan l fi ((py / 8) * (width / 8) + px / 8) =
      tileGroupAt (frames.getD fi []) width (px / 8) (py / 8) l := by
    unfold planGroupAt
    rw [hgroups]
    rw [getD_range_map _ plan.layerCount l [] hlplan]
    rw [getD_range_map _ frames.length fi [] hfi]
    rw [getD_range_map _ ((width / 8) * (height / 8)) _ [] ht]
    rw [htdm.1, htdm.2]
  constructor
  · -- decoded pixel index
    rw [htxe, htye, htl]
    unfold layerTilesSeq
    rw [getD_range_map _ _ _ [] hI, hIdm.1, hIdm.2, htdm.1, htdm.2, hgrp]
    rw [decodePixelIdx_encode (frames.getD fi []) width ((px / 8) * 8) ((py / 8) * 8) _
      (px % 8) (py % 8) (by omega) (by omega)]
    rw [show (px / 8) * 8 + px % 8 = px by omega, show (py / 8) * 8 + py % 8 = py by omega]
  · -- palette bank entry
    rw [htxe, htye, hbk, hids]
    have hlen : (layerGroupsSeq plan frames.length ((width / 8) * (height / 8)) l).length =
        frames.length * ((width / 8) * (height / 8)) := by
      unfold layerGroupsSeq
      rw [List.length_map, List.length_range]
    obtain ⟨-, -, -, -, hper⟩ := internLayer_spec maxPals _ [] bank ids hint
    obtain ⟨hidlt, hbent⟩ := hper
      (fi * ((width / 8) * (height / 8)) + ((py / 8) * (width / 8) + px / 8))
      (by rw [hlen]; exact hI)
    rw [hbent]
    unfold layerGroupsSeq
    rw [getD_range_map _ _ _ [] hI, hIdm.1, hIdm.2, hgrp]

end LayerAccess

section RoundTrip

/-- Every tile's chunk count is dominated by a successful export's layer
count (the plan's running maximum over all tiles and frames). -/
theorem encodeAll_chunks_le (frames : List (List Nat))
    (width height maxLayers maxPals : Nat) (out : NgpcOutput)
    (h : encodeAll frames width height maxLayers maxPals = .ok out)
    (fi px py : Nat) (hfi : fi < frames.length) (hpx : px < width) (hpy : py < height) :
    tileChunksAt (frames.getD fi []) width (px / 8) (py / 8) ≤ out.layerCount := by
  obtain ⟨hw8, hh8, plan, hplan, hlc, htxe, htye, hp2⟩ :=
    encodeAll_ok_spec frames width height maxLayers maxPals out h
  obtain ⟨hchle, hlce, hgroups⟩ :=
    buildLayeredPlan_ok_spec frames width height maxLayers plan hplan
  have htx : px / 8 < width / 8 := by omega
  have hty : py / 8 < height / 8 := by omega
  have ht : (py / 8) * (width / 8) + px / 8 < (width / 8) * (height / 8) :=
    tile_index_lt (px / 8) (py / 8) (width / 8) (height / 8) htx hty
  have hI : fi * ((width / 8) * (height / 8)) + ((py / 8) * (width / 8) + px / 8) <
      frames.length * ((width / 8) * (height / 8)) := by
    have h2 := tile_index_lt ((py / 8) * (width / 8) + px / 8) fi
      ((width / 8) * (height / 8)) frames.length ht hfi
    rwa [Nat.mul_comm ((width / 8) * (height / 8)) frames.length] at h2
  have hIdm := indexPack_div_mod fi ((py / 8) * (width / 8) + px / 8)
    ((width / 8) * (height / 8)) ht
  have htdm := indexPack_div_mod (py / 8) (px / 8) (width / 8) htx
  have hcheq : chunksAtIdx frames width (width / 8) ((width / 8) * (height / 8))
      (fi * ((width / 8) * (height / 8)) + ((py / 8) * (width / 8) + px / 8)) =
      tileChunksAt (frames.getD fi []) width (px / 8) (py / 8) := by
    unfold chunksAtIdx
    rw [hIdm.1, hIdm.2, htdm.1, htdm.2]
  have hmem : tileChunksAt (frames.getD fi []) width (px / 8) (py / 8) ∈
      (List.range (frames.length * ((width / 8) * (height / 8)))).map
        (chunksAtIdx frames width (width / 8) ((width / 8) * (height / 8))) :=
    List.mem_map.2 ⟨_, List.mem_range.2 hI, hcheq⟩
  have := le_foldl_max _ 1 _ hmem
  omega

/-- C1: Round-trip reconstruction.  For every input image that encodes
successfully, compositing all layers in order (layer 0 first, each following
layer drawn over it at the same tile position, using each layer's own 4-slot
palette, with pixel index 0 transparent) yields, for every source pixel with
nonzero alpha, the RGB444 quantization of that pixel's original color, and
yields transparent (none) for every source pixel with alpha 0. -/
theorem c1_round_trip (frames : List (List Nat))
    (width height maxLayers maxPals : Nat) (out : NgpcOutput)
    (h : encodeAll frames width height maxLayers maxPals = .ok out)
    (fi px py : Nat) (hfi : fi < frames.length) (hpx : px < width) (hpy : py < height) :
    compositeAt out fi px py =
      (if (pixelRGBA (frames.getD fi []) width px py).a = 0 then none
       else some (rgbToRgb444 (pixelRGBA (frames.getD fi []) width px py).r
         (pixelRGBA (frames.getD fi []) width px py).g
         (pixelRGBA (frames.getD fi []) width px py).b)) := by
  by_cases hpa : (pixelRGBA (frames.getD fi []) width px py).a = 0
  · rw [if_pos hpa]
    unfold compositeAt
    dsimp only
    refine compositeFold_none _ _ _ ?_
    intro x hx
    rw [(encodeAll_layer_access frames width height maxLayers maxPals out h x fi px py
      (List.mem_range.1 hx) hfi hpx hpy).1]
    unfold tilePixelCode
    dsimp only
    rw [if_pos hpa]
  · rw [if_neg hpa]
    -- the pixel's color and its position in the tile's sorted color list
    have hmemc : pixelRGBA (frames.getD fi []) width px py ∈
        collectTileColors (frames.getD fi []) width (px / 8) (py / 8) := by
      refine (mem_collectTileColors (frames.getD fi []) width (px / 8) (py / 8) _).2
        ⟨px % 8, by omega, py % 8, by omega, ?_, hpa⟩
      rw [show (px / 8) * 8 + px % 8 = px by omega, show (py / 8) * 8 + py % 8 = py by omega]
    have hmemL : pixelRGBA (frames.getD fi []) width px py ∈
        tileColorsSorted (frames.getD fi []) width (px / 8) (py / 8) :=
      (mem_sortColors _ _).2 hmemc
    have hnodL : (tileColorsSorted (frames.getD fi []) width (px / 8) (py / 8)).Nodup :=
      nodup_sortColors _ (nodup_collectTileColors _ _ _ _)
    obtain ⟨j, hj, hLj⟩ := List.mem_iff_getElem.1 hmemL
    have hlenL : (tileColorsSorted (frames.getD fi []) width (px / 8) (py / 8)).length =
        (collectTileColors (frames.getD fi []) width (px / 8) (py / 8)).length :=
      length_sortColors _
    have hchunks := encodeAll_chunks_le frames width height maxLayers maxPals out h
      fi px py hfi hpx hpy
    have hcheq : tileChunksAt (frames.getD fi []) width (px / 8) (py / 8) =
        ((collectTileColors (frames.getD fi []) width (px / 8) (py / 8)).length + 2) / 3 :=
      rfl
    have hl0 : j / 3 < out.layerCount := by omega
    -- the group of the layer owning this color
    have hchunkq := chunk_getElem? (tileColorsSorted (frames.getD fi []) width (px / 8) (py / 8)) j
    rw [List.getElem?_eq_getElem hj, hLj] at hchunkq
    obtain ⟨hplen, hpget⟩ := List.getElem?_eq_some.mp hchunkq
    have hgnod : (tileGroupAt (frames.getD fi []) width (px / 8) (py / 8) (j / 3)).Nodup :=
      chunk_nodup _ hnodL (j / 3)
    have hmap : buildIdxMap (tileGroupAt (frames.getD fi []) width (px / 8) (py / 8) (j / 3))
        (pixelRGBA (frames.getD fi []) width px py) = j % 3 + 1 := by
      have hb := buildIdxMap_getElem _ hgnod (j % 3) hplen
      rw [show (tileGroupAt (frames.getD fi []) width (px / 8) (py / 8) (j / 3)).get
          ⟨j % 3, hplen⟩ = pixelRGBA (frames.getD fi []) width px py from hpget] at hb
      rw [hb, Nat.mod_eq_of_lt (by omega)]
    have hcode0 : tilePixelCode (frames.getD fi []) width
        (buildIdxMap (tileGroupAt (frames.getD fi []) width (px / 8) (py / 8) (j / 3)))
        px py = j % 3 + 1 := by
      unfold tilePixelCode
      dsimp only
      rw [if_neg hpa, hmap, if_neg (by omega)]
    have hcode_other : ∀ l, l ≠ j / 3 →
        tilePixelCode (frames.getD fi []) width
          (buildIdxMap (tileGroupAt (frames.getD fi []) width (px / 8) (py / 8) l))
          px py = 0 := by
      intro l hne
      have hnm : pixelRGBA (frames.getD fi []) width px py ∉
          tileGroupAt (frames.getD fi []) width (px / 8) (py / 8) l := by
        intro hmem
        have hmem0 : pixelRGBA (frames.getD fi []) width px py ∈
            tileGroupAt (frames.getD fi []) width (px / 8) (py / 8) (j / 3) :=
          hpget ▸ List.getElem_mem hplen
        exact hne (chunk_unique _ hnodL _ l (j / 3) hmem hmem0)
      unfold tilePixelCode
      dsimp only
      rw [if_neg hpa, buildIdxMap_not_mem _ _ hnm, if_pos rfl]
    -- palette entry of the owning layer at index j % 3 + 1
    have haccess := encodeAll_layer_access frames width height maxLayers maxPals out h
      (j / 3) fi px py hl0 hfi hpx hpy
    have hpal : (buildTilePaletteRgb444
        (tileGroupAt (frames.getD fi []) width (px / 8) (py / 8) (j / 3))).getD
        (j % 3 + 1) 0 =
        rgbToRgb444 (pixelRGBA (frames.getD fi []) width px py).r
          (pixelRGBA (frames.getD fi []) width px py).g
          (pixelRGBA (frames.getD fi []) width px py).b := by
      have hslot : paletteSlot
          (tileGroupAt (frames.getD fi []) width (px / 8) (py / 8) (j / 3)) (j % 3) =
          rgbToRgb444 (pixelRGBA (frames.getD fi []) width px py).r
            (pixelRGBA (frames.getD fi []) width px py).g
            (pixelRGBA (frames.getD fi []) width px py).b := by
        unfold paletteSlot tileGroupAt
        rw [hchunkq]
      have h3 : j % 3 = 0 ∨ j % 3 = 1 ∨ j % 3 = 2 := by omega
      rcases h3 with h3 | h3 | h3 <;> rw [h3] <;> rw [h3] at hslot <;> exact hslot
    -- assemble the composite
    unfold compositeAt
    dsimp only
    refine compositeFold_unique _ _ _ (List.range out.layerCount) (j / 3)
      (List.mem_range.2 hl0) ?_ ?_ ?_
    · rw [haccess.1, hcode0]
      omega
    · rw [haccess.1, hcode0, haccess.2, hpal]
    · intro x hx hne
      rw [(encodeAll_layer_access frames width height maxLayers maxPals out h x fi px py
        (List.mem_range.1 hx) hfi hpx hpy).1]
      exact hcode_other x hne

end RoundTrip

/-- Witness for C1 at a concrete image: an opaque pixel composites to its
RGB444 color and a transparent pixel composites to none. -/
theorem c1_round_trip_witness :
    (compositeAt (okOutput (encodeAll [testFrameA] 8 8 3 16)) 0 4 0 =
      (if (pixelRGBA ([testFrameA].getD 0 []) 8 4 0).a = 0 then none
       else some (rgbToRgb444 (pixelRGBA ([testFrameA].getD 0 []) 8 4 0).r
         (pixelRGBA ([testFrameA].getD 0 []) 8 4 0).g
         (pixelRGBA ([testFrameA].getD 0 []) 8 4 0).b))) ∧
    (compositeAt (okOutput (encodeAll [testFrameA] 8 8 3 16)) 0 0 0 =
      (if (pixelRGBA ([testFrameA].getD 0 []) 8 0 0).a = 0 then none
       else some (rgbToRgb444 (pixelRGBA ([testFrameA].getD 0 []) 8 0 0).r
         (pixelRGBA ([testFrameA].getD 0 []) 8 0 0).g
         (pixelRGBA ([testFrameA].getD 0 []) 8 0 0).b))) :=
  ⟨c1_round_trip [testFrameA] 8 8 3 16 (okOutput (encodeAll [testFrameA] 8 8 3 16))
      (by rfl) 0 4 0 (by decide) (by decide) (by decide),
    c1_round_trip [testFrameA] 8 8 3 16 (okOutput (encodeAll [testFrameA] 8 8 3 16))
      (by rfl) 0 0 0 (by decide) (by decide) (by decide)⟩

/-- C2: Color partition completeness.  For every frame and tile of a
successful plan: every layer's group is the slice list[3c : 3c+3] of the
tile's sorted color list; the union of the groups over the output layers is
exactly the set of distinct opaque colors among the tile's 64 pixels; no
color appears in the groups of two different layers; and layers at or past
ceil(n/3) get an empty group. -/
theorem c2_partition (frames : List (List Nat)) (width height maxLayers : Nat)
    (plan : Plan) (hplan : buildLayeredPlan frames width height maxLayers = .ok plan)
    (fi t : Nat) (hfi : fi < frames.length) (ht : t < (width / 8) * (height / 8)) :
    (∀ c, planGroupAt plan c fi t =
      ((tileColorsSorted (frames.getD fi []) width (t % (width / 8)) (t / (width / 8))).drop
        (3 * c)).take 3) ∧
    (∀ ck, (∃ c < plan.layerCount, ck ∈ planGroupAt plan c fi t) ↔
      (∃ x < 8, ∃ y < 8,
        pixelRGBA (frames.getD fi []) width ((t % (width / 8)) * 8 + x)
          ((t / (width / 8)) * 8 + y) = ck ∧ ck.a ≠ 0)) ∧
    (∀ c1 c2 ck, ck ∈ planGroupAt plan c1 fi t → ck ∈ planGroupAt plan c2 fi t → c1 = c2) ∧
    (∀ c, tileChunksAt (frames.getD fi []) width (t % (width / 8)) (t / (width / 8)) ≤ c →
      planGroupAt plan c fi t = []) := by
  obtain ⟨hchle, hlce, hgroups⟩ :=
    buildLayeredPlan_ok_spec frames width height maxLayers plan hplan
  have hX0 : 0 < width / 8 := by
    rcases Nat.eq_zero_or_pos (width / 8) with h0 | h0
    · rw [h0] at ht; simp at ht
    · exact h0
  have hI : fi * ((width / 8) * (height / 8)) + t <
      frames.length * ((width / 8) * (height / 8)) := by
    have h2 := tile_index_lt t fi ((width / 8) * (height / 8)) frames.length ht hfi
    rwa [Nat.mul_comm ((width / 8) * (height / 8)) frames.length] at h2
  have hIdm := indexPack_div_mod fi t ((width / 8) * (height / 8)) ht
  -- chunk bound for this tile
  have hcheq : chunksAtIdx frames width (width / 8) ((width / 8) * (height / 8))
      (fi * ((width / 8) * (height / 8)) + t) =
      tileChunksAt (frames.getD fi []) width (t % (width / 8)) (t / (width / 8)) := by
    unfold chunksAtIdx
    rw [hIdm.1, hIdm.2]
  have hchlc : tileChunksAt (frames.getD fi []) width (t % (width / 8)) (t / (width / 8)) ≤
      plan.layerCount := by
    have hmem : tileChunksAt (frames.getD fi []) width (t % (width / 8)) (t / (width / 8)) ∈
        (List.range (frames.length * ((width / 8) * (height / 8)))).map
          (chunksAtIdx frames width (width / 8) ((width / 8) * (height / 8))) :=
      List.mem_map.2 ⟨_, List.mem_range.2 hI, hcheq⟩
    have := le_foldl_max _ 1 _ hmem
    omega
  have hLn : (tileColorsSorted (frames.getD fi []) width (t % (width / 8))
      (t / (width / 8))).length =
      (collectTileColors (frames.getD fi []) width (t % (width / 8))
        (t / (width / 8))).length := length_sortColors _
  have hnodL : (tileColorsSorted (frames.getD fi []) width (t % (width / 8))
      (t / (width / 8))).Nodup :=
    nodup_sortColors _ (nodup_collectTileColors _ _ _ _)
  have hcdef : tileChunksAt (frames.getD fi []) width (t % (width / 8)) (t / (width / 8)) =
      ((collectTileColors (frames.getD fi []) width (t % (width / 8))
        (t / (width / 8))).length + 2) / 3 := rfl
  -- (1) the group formula, for every layer index
  have hg : ∀ c, planGroupAt plan c fi t =
      ((tileColorsSorted (frames.getD fi []) width (t % (width / 8))
        (t / (width / 8))).drop (3 * c)).take 3 := by
    intro c
    by_cases hc : c < plan.layerCount
    · unfold planGroupAt
      rw [hgroups]
      rw [getD_range_map _ plan.layerCount c [] hc]
      rw [getD_range_map _ frames.length fi [] hfi]
      rw [getD_range_map _ ((width / 8) * (height / 8)) t [] ht]
      rfl
    · have hleng : plan.groups.length = plan.layerCount := by
        rw [hgroups, List.length_map, List.length_range]
      have hco : plan.groups.getD c [] = [] :=
        List.getD_eq_default plan.groups [] (by omega)
      have h1 : planGroupAt plan c fi t = [] := by
        unfold planGroupAt
        rw [hco]
        rfl
      have h2 : ((tileColorsSorted (frames.getD fi []) width (t % (width / 8))
          (t / (width / 8))).drop (3 * c)).take 3 = ([] : List RGBA) := by
        refine chunk_empty _ c ?_
        have : tileChunksAt (frames.getD fi []) width (t % (width / 8)) (t / (width / 8)) =
            ((collectTileColors (frames.getD fi []) width (t % (width / 8))
              (t / (width / 8))).length + 2) / 3 := rfl
        omega
      rw [h1, h2]
  refine ⟨hg, ?_, ?_, ?_⟩
  · -- union over the output layers = distinct opaque colors of the tile
    intro ck
    constructor
    · rintro ⟨c, hc, hmem⟩
      rw [hg c] at hmem
      obtain ⟨j, hj, hLj, _⟩ := (mem_chunk_iff _ c ck).1 hmem
      have hckL : ck ∈ tileColorsSorted (frames.getD fi []) width (t % (width / 8))
          (t / (width / 8)) := hLj ▸ List.getElem_mem hj
      have := (mem_sortColors _ _).1 hckL
      exact (mem_collectTileColors _ _ _ _ _).1 this
    · intro hpx
      have hckc : ck ∈ collectTileColors (frames.getD fi []) width (t % (width / 8))
          (t / (width / 8)) := (mem_collectTileColors _ _ _ _ _).2 hpx
      have hckL : ck ∈ tileColorsSorted (frames.getD fi []) width (t % (width / 8))
          (t / (width / 8)) := (mem_sortColors _ _).2 hckc
      obtain ⟨j, hj, hLj⟩ := List.mem_iff_getElem.1 hckL
      refine ⟨j / 3, by omega, ?_⟩
      rw [hg (j / 3)]
      exact (mem_chunk_iff _ (j / 3) ck).2 ⟨j, hj, hLj, rfl⟩
  · -- no color sits in two different layers
    intro c1 c2 ck h1 h2
    rw [hg c1] at h1
    rw [hg c2] at h2
    exact chunk_unique _ hnodL ck c1 c2 h1 h2
  · -- layers past the tile's chunk count are empty
    intro c hc
    rw [hg c]
    refine chunk_empty _ c ?_
    have : tileChunksAt (frames.getD fi []) width (t % (width / 8)) (t / (width / 8)) =
        ((collectTileColors (frames.getD fi []) width (t % (width / 8))
          (t / (width / 8))).length + 2) / 3 := rfl
    omega

/-- Witness for C2 at a concrete plan: the layer-0 group of tile 0 is the
first slice of the sorted color list. -/
theorem c2_partition_witness :
    planGroupAt (okPlan (buildLayeredPlan [testFrameA] 8 8 3)) 0 0 0 =
      ((tileColorsSorted ([testFrameA].getD 0 []) 8 (0 % (8 / 8)) (0 / (8 / 8))).drop
        (3 * 0)).take 3 :=
  (c2_partition [testFrameA] 8 8 3 (okPlan (buildLayeredPlan [testFrameA] 8 8 3))
    (by rfl) 0 0 (by decide) (by decide)).1 0

/-- C3 counterexample: for the fully transparent 8x8 single-frame image the
encode succeeds with layerCount 1, while the maximum over all tiles of
ceil(n/3) is 0 — so layerCount does not equal that maximum as the claim
states. -/
theorem c3_counterexample :
    encodeAll [testFrameT] 8 8 3 16 = .ok (okOutput (encodeAll [testFrameT] 8 8 3 16)) ∧
    (okOutput (encodeAll [testFrameT] 8 8 3 16)).layerCount = 1 ∧
    ((List.range (([testFrameT] : List (List Nat)).length * ((8 / 8) * (8 / 8)))).map
      (chunksAtIdx [testFrameT] 8 (8 / 8) ((8 / 8) * (8 / 8)))).foldl max 0 = 0 ∧
    (1 : Nat) ≠ 0 := by
  refine ⟨by rfl, by rfl, by decide, by decide⟩

/-- C3 (amended): for every image that encodes successfully, layerCount is
the maximum of 1 and the maximum over all frames and tiles of ceil(n/3)
(the running maximum starts at 1, so a fully transparent image still gets
one layer), and it never exceeds maxLayers when maxLayers is at least 1. -/
theorem c3_layer_count (frames : List (List Nat))
    (width height maxLayers maxPals : Nat) (out : NgpcOutput)
    (h : encodeAll frames width height maxLayers maxPals = .ok out)
    (hml : 1 ≤ maxLayers) :
    out.layerCount =
      max 1 (((List.range (frames.length * ((width / 8) * (height / 8)))).map
        (chunksAtIdx frames width (width / 8) ((width / 8) * (height / 8)))).foldl max 0) ∧
    out.layerCount ≤ maxLayers := by
  obtain ⟨hw8, hh8, plan, hplan, hlc, htxe, htye, hp2⟩ :=
    encodeAll_ok_spec frames width height maxLayers maxPals out h
  obtain ⟨hchle, hlce, hgroups⟩ :=
    buildLayeredPlan_ok_spec frames width height maxLayers plan hplan
  constructor
  · rw [hlc, hlce]
    have h10 : (1 : Nat) = max 1 0 := rfl
    rw [h10, foldl_max_factor_seed]
    omega
  · rw [hlc, hlce]
    refine foldl_max_le maxLayers _ 1 hml ?_
    intro x hx
    obtain ⟨i, hi, rfl⟩ := List.mem_map.1 hx
    exact hchle i (List.mem_range.1 hi)

/-- Witness for C3 (amended) at a concrete image. -/
theorem c3_layer_count_witness :
    (okOutput (encodeAll [testFrameA] 8 8 3 16)).layerCount =
      max 1 (((List.range (([testFrameA] : List (List Nat)).length * ((8 / 8) * (8 / 8)))).map
        (chunksAtIdx [testFrameA] 8 (8 / 8) ((8 / 8) * (8 / 8)))).foldl max 0) ∧
    (okOutput (encodeAll [testFrameA] 8 8 3 16)).layerCount ≤ 3 :=
  c3_layer_count [testFrameA] 8 8 3 16 (okOutput (encodeAll [testFrameA] 8 8 3 16))
    (by rfl) (by decide)

/-- C4: Tile bit-packing layout.  Every encoded tile is exactly 16 bytes;
reading the byte at index 2*y (block of columns 7..4) or 2*y+1 (block of
columns 3..0) shifted by two bits per column from the block's right edge
recovers exactly the pixel's 2-bit code, i.e. rows are emitted top to bottom,
two bytes per row, the rightmost pixel of each 4-pixel block at bits 0..1 and
each pixel leftward two bits higher; and the concrete scenario (one layer,
group [ColorA, ColorB, ColorC], top row ColorA in columns 4..7, transparent
in columns 0..3) yields first-row bytes 0x55 then 0x00. -/
theorem c4_tile_packing :
    (∀ (pix : List Nat) (imgW x0 y0 : Nat) (group : List RGBA),
      (encodeNgpcTile2bppLayered pix imgW x0 y0 group).length = 16) ∧
    (∀ (pix : List Nat) (imgW x0 y0 : Nat) (group : List RGBA) (x y : Nat),
      x < 8 → y < 8 →
      decodePixelIdx (encodeNgpcTile2bppLayered pix imgW x0 y0 group) x y =
        tilePixelCode pix imgW (buildIdxMap group) (x0 + x) (y0 + y)) ∧
    (encodeNgpcTile2bppLayered testFrameA 8 0 0 [colorA, colorB, colorC]).getD 0 0 = 0x55 ∧
    (encodeNgpcTile2bppLayered testFrameA 8 0 0 [colorA, colorB, colorC]).getD 1 0 = 0x00 := by
  refine ⟨?_, ?_, by decide, by decide⟩
  · intro pix imgW x0 y0 group
    unfold encodeNgpcTile2bppLayered
    rw [length_rowPairs]
  · intro pix imgW x0 y0 group x y hx hy
    exact decodePixelIdx_encode pix imgW x0 y0 group x y hx hy

/-- Witness for C4 at a concrete tile, row and column. -/
theorem c4_tile_packing_witness :
    decodePixelIdx (encodeNgpcTile2bppLayered testFrameA 8 0 0 [colorA, colorB, colorC]) 4 0 =
      tilePixelCode testFrameA 8 (buildIdxMap [colorA, colorB, colorC]) (0 + 4) (0 + 0) :=
  c4_tile_packing.2.1 testFrameA 8 0 0 [colorA, colorB, colorC] 4 0 (by decide) (by decide)

/-- C5: Pixel index rule.  For a duplicate-free group of at most 3 colors
(which every group of the layered plan is — last conjunct), a pixel's 2-bit
code is 0 when the source pixel has alpha 0 or its color is not in the
group, and otherwise 1 plus the 0-based position of the color in the ordered
group; every emitted code lies in 0..3. -/
theorem c5_pixel_index :
    (∀ (pix : List Nat) (imgW : Nat) (group : List RGBA) (x y : Nat),
      group.Nodup → group.length ≤ 3 →
      tilePixelCode pix imgW (buildIdxMap group) x y =
        (if (pixelRGBA pix imgW x y).a = 0 then 0
         else if pixelRGBA pix imgW x y ∈ group then
           1 + posOf (pixelRGBA pix imgW x y) group
         else 0) ∧
      tilePixelCode pix imgW (buildIdxMap group) x y < 4) ∧
    (∀ (pix : List Nat) (width tx ty l : Nat),
      (tileGroupAt pix width tx ty l).Nodup ∧ (tileGroupAt pix width tx ty l).length ≤ 3) := by
  constructor
  · intro pix imgW group x y hn hlen
    refine ⟨?_, tilePixelCode_lt_four pix imgW _ (buildIdxMap_lt_four group) x y⟩
    by_cases hpa : (pixelRGBA pix imgW x y).a = 0
    · rw [if_pos hpa]
      unfold tilePixelCode
      dsimp only
      rw [if_pos hpa]
    · rw [if_neg hpa]
      by_cases hmem : pixelRGBA pix imgW x y ∈ group
      · rw [if_pos hmem]
        have hq := posOf_getElem? _ _ hmem
        obtain ⟨hplt, hpget⟩ := List.getElem?_eq_some.mp hq
        have hmap : buildIdxMap group (pixelRGBA pix imgW x y) =
            posOf (pixelRGBA pix imgW x y) group + 1 := by
          have hb := buildIdxMap_getElem group hn (posOf (pixelRGBA pix imgW x y) group) hplt
          rw [show group.get ⟨posOf (pixelRGBA pix imgW x y) group, hplt⟩ =
            pixelRGBA pix imgW x y from hpget] at hb
          rw [hb, Nat.mod_eq_of_lt (by omega)]
        unfold tilePixelCode
        dsimp only
        rw [if_neg hpa, hmap, if_neg (by omega)]
        omega
      · rw [if_neg hmem]
        unfold tilePixelCode
        dsimp only
        rw [if_neg hpa, buildIdxMap_not_mem _ _ hmem, if_pos rfl]
  · intro pix width tx ty l
    have hnodL : (tileColorsSorted pix width tx ty).Nodup :=
      nodup_sortColors _ (nodup_collectTileColors _ _ _ _)
    exact ⟨chunk_nodup _ hnodL l, chunk_length_le _ l⟩

/-- Witness for C5 at a concrete group, tile and pixel. -/
theorem c5_pixel_index_witness :
    tilePixelCode testFrameA 8 (buildIdxMap [colorA]) 4 0 =
      (if (pixelRGBA testFrameA 8 4 0).a = 0 then 0
       else if pixelRGBA testFrameA 8 4 0 ∈ [colorA] then
         1 + posOf (pixelRGBA testFrameA 8 4 0) [colorA]
       else 0) ∧
    tilePixelCode testFrameA 8 (buildIdxMap [colorA]) 4 0 < 4 :=
  c5_pixel_index.1 testFrameA 8 [colorA] 4 0 (by decide) (by decide)

/-- OR-ing three nibbles at bit positions 8, 4, 0 is base-16 digit
composition (exhaustive check over the 4096 digit combinations). -/
theorem or3_nibbles (a b c : Fin 16) :
    ((a.val <<< 8) ||| (b.val <<< 4) ||| c.val) =
      a.val * 256 + b.val * 16 + c.val := by
  revert a b c
  decide

/-- C6: Palette construction.  For every group of at most 3 colors the built
palette has 4 slots: slot 0 is 0, slot i+1 is the RGB444 packing of group
entry i when it exists, remaining slots are 0; RGB444 packing takes the top
4 bits of each channel into 0b0000BBBBGGGGRRRR, i.e. b4*256 + g4*16 + r4. -/
theorem c6_palette :
    (∀ group : List RGBA, group.length ≤ 3 →
      (buildTilePaletteRgb444 group).length = 4 ∧
      (buildTilePaletteRgb444 group).getD 0 0 = 0 ∧
      (∀ i, i < group.length →
        (buildTilePaletteRgb444 group).getD (i + 1) 0 =
          rgbToRgb444 (group.getD i default).r (group.getD i default).g
            (group.getD i default).b) ∧
      (∀ i, group.length ≤ i → i < 3 →
        (buildTilePaletteRgb444 group).getD (i + 1) 0 = 0)) ∧
    (∀ r g b : Nat,
      rgbToRgb444 r g b = (b / 16 % 16) * 256 + (g / 16 % 16) * 16 + (r / 16 % 16)) := by
  constructor
  · intro group hlen
    refine ⟨rfl, rfl, ?_, ?_⟩
    · intro i hi
      have h3 : i = 0 ∨ i = 1 ∨ i = 2 := by omega
      have hslot : ∀ k, k < group.length →
          paletteSlot group k =
            rgbToRgb444 (group.getD k default).r (group.getD k default).g
              (group.getD k default).b := by
        intro k hk
        unfold paletteSlot
        rw [List.getElem?_eq_getElem hk]
        rw [List.getD, List.get?_eq_getElem?, List.getElem?_eq_getElem hk]
        rfl
      rcases h3 with h3 | h3 | h3 <;> subst h3 <;> exact hslot _ hi
    · intro i hi hi3
      have hslot : ∀ k, group.length ≤ k → paletteSlot group k = 0 := by
        intro k hk
        unfold paletteSlot
        rw [List.getElem?_eq_none hk]
      have h3 : i = 0 ∨ i = 1 ∨ i = 2 := by omega
      rcases h3 with h3 | h3 | h3 <;> subst h3 <;> exact hslot _ hi
  · intro r g b
    unfold rgbToRgb444
    dsimp only
    have hr : (r >>> 4) &&& 15 = r / 16 % 16 := by
      rw [Nat.shiftRight_eq_div_pow]
      have := Nat.and_pow_two_sub_one_eq_mod (r / 2 ^ 4) 4
      norm_num at this ⊢
      exact this
    have hg : (g >>> 4) &&& 15 = g / 16 % 16 := by
      rw [Nat.shiftRight_eq_div_pow]
      have := Nat.and_pow_two_sub_one_eq_mod (g / 2 ^ 4) 4
      norm_num at this ⊢
      exact this
    have hb : (b >>> 4) &&& 15 = b / 16 % 16 := by
      rw [Nat.shiftRight_eq_div_pow]
      have := Nat.and_pow_two_sub_one_eq_mod (b / 2 ^ 4) 4
      norm_num at this ⊢
      exact this
    rw [hr, hg, hb]
    have hlt : ∀ n : Nat, n / 16 % 16 < 16 := fun n => Nat.mod_lt _ (by omega)
    have := or3_nibbles ⟨b / 16 % 16, hlt b⟩ ⟨g / 16 % 16, hlt g⟩ ⟨r / 16 % 16, hlt r⟩
    exact this

/-- Witness for C6 at a concrete group. -/
theorem c6_palette_witness :
    (buildTilePaletteRgb444 [colorA]).length = 4 ∧
    (buildTilePaletteRgb444 [colorA]).getD 0 0 = 0 ∧
    (∀ i, i < ([colorA] : List RGBA).length →
      (buildTilePaletteRgb444 [colorA]).getD (i + 1) 0 =
        rgbToRgb444 (([colorA] : List RGBA).getD i default).r
          (([colorA] : List RGBA).getD i default).g
          (([colorA] : List RGBA).getD i default).b) ∧
    (∀ i, ([colorA] : List RGBA).length ≤ i → i < 3 →
      (buildTilePaletteRgb444 [colorA]).getD (i + 1) 0 = 0) :=
  c6_palette.1 [colorA] (by decide)

/-- C7: Palette interning.  The lookup scans the bank in insertion order and
returns the first equal entry's index with the bank unchanged; otherwise it
appends below capacity and returns the new index; otherwise it signals -1
and the caller aborts the whole encode with a PaletteOverflow naming a layer
whose interning genuinely failed and the configured capacity.  In every
successful encode each bank's size is at most maxPalettesPerLayer and every
stored palette id indexes its bank. -/
theorem c7_palette_interning :
    (∀ (bank : List (List Nat)) (pal : List Nat) (maxCount i : Nat),
      palSearch bank pal = some i →
      findOrAddPalette bank pal maxCount = ((i : Int), bank) ∧
      i < bank.length ∧ bank.getD i [] = pal ∧ ∀ j < i, bank.getD j [] ≠ pal) ∧
    (∀ (bank : List (List Nat)) (pal : List Nat) (maxCount : Nat),
      pal ∉ bank → bank.length < maxCount →
      findOrAddPalette bank pal maxCount = ((bank.length : Int), bank ++ [pal])) ∧
    (∀ (bank : List (List Nat)) (pal : List Nat) (maxCount : Nat),
      pal ∉ bank → maxCount ≤ bank.length →
      findOrAddPalette bank pal maxCount = (-1, bank)) ∧
    (∀ (frames : List (List Nat)) (width height maxLayers maxPals : Nat) (out : NgpcOutput),
      encodeAll frames width height maxLayers maxPals = .ok out →
      ∀ l < out.layerCount,
        (out.banks.getD l []).length ≤ maxPals ∧
        ∀ i < frames.length * ((width / 8) * (height / 8)),
          (out.palIds.getD l []).getD i 0 < (out.banks.getD l []).length) ∧
    (∀ (frames : List (List Nat)) (width height maxLayers maxPals : Nat) (e : POErr),
      encodeAll frames width height maxLayers maxPals = .error (.paletteOverflow e) →
      e.capacity = maxPals ∧
      ∃ plan, buildLayeredPlan frames width height maxLayers = .ok plan ∧
        e.layer < plan.layerCount ∧
        internLayer maxPals
          (layerGroupsSeq plan frames.length ((width / 8) * (height / 8)) e.layer) [] =
          none) := by
  refine ⟨?_, ?_, ?_, ?_, ?_⟩
  · intro bank pal maxCount i hps
    obtain ⟨hlt, hgd, hfirst⟩ := palSearch_some_spec bank pal i hps
    refine ⟨?_, hlt, hgd, hfirst⟩
    unfold findOrAddPalette
    rw [hps]
  · intro bank pal maxCount hnm hlt
    unfold findOrAddPalette
    rw [(palSearch_eq_none bank pal).mpr hnm]
    rw [if_neg (by omega)]
  · intro bank pal maxCount hnm hge
    unfold findOrAddPalette
    rw [(palSearch_eq_none bank pal).mpr hnm]
    rw [if_pos (by omega)]
  · intro frames width height maxLayers maxPals out h l hl
    obtain ⟨hw8, hh8, plan, hplan, hlc, htxe, htye, hp2⟩ :=
      encodeAll_ok_spec frames width height maxLayers maxPals out h
    obtain ⟨bank, ids, hint, hbk, hids, htl⟩ :=
      pass2Layers_ok_spec frames width (width / 8) ((width / 8) * (height / 8))
        frames.length maxPals plan (List.range plan.layerCount)
        out.banks out.palIds out.tiles hp2 l (by rw [List.length_range]; omega)
    rw [getD_range plan.layerCount l 0 (by omega)] at hint htl
    obtain ⟨hlen, hle, hpres, hcap, hper⟩ := internLayer_spec maxPals _ [] bank ids hint
    have hgslen : (layerGroupsSeq plan frames.length ((width / 8) * (height / 8)) l).length =
        frames.length * ((width / 8) * (height / 8)) := by
      unfold layerGroupsSeq
      rw [List.length_map, List.length_range]
    rw [hbk, hids]
    refine ⟨hcap (by simp), ?_⟩
    intro i hi
    exact (hper i (by omega)).1
  · intro frames width height maxLayers maxPals e h
    unfold encodeAll at h
    split at h
    · next hcond =>
      cases hp : buildLayeredPlan frames width height maxLayers with
      | error e2 => rw [hp] at h; simp at h
      | ok plan =>
        rw [hp] at h
        dsimp only at h
        cases hp2 : pass2Layers frames width (width / 8) ((width / 8) * (height / 8))
            frames.length maxPals plan (List.range plan.layerCount) with
        | ok triple =>
          obtain ⟨banks, idss, tiless⟩ := triple
          rw [hp2] at h
          simp at h
        | error e2 =>
          rw [hp2] at h
          simp only [Except.error.injEq, EncodeError.paletteOverflow.injEq] at h
          subst h
          obtain ⟨h1, h2, h3⟩ :=
            pass2Layers_error_spec frames width (width / 8) ((width / 8) * (height / 8))
              frames.length maxPals plan (List.range plan.layerCount) e2 hp2
          exact ⟨h1, plan, rfl, List.mem_range.1 h2, h3⟩
    · simp at h

/-- Witness for C7: the found, appended and full cases at a concrete bank,
and the bank-size invariant of a concrete successful encode. -/
theorem c7_palette_interning_witness :
    (findOrAddPalette [[0, 801, 0, 0]] [0, 801, 0, 0] 16 = ((0 : Int), [[0, 801, 0, 0]]) ∧
      0 < ([[0, 801, 0, 0]] : List (List Nat)).length ∧
      ([[0, 801, 0, 0]] : List (List Nat)).getD 0 [] = [0, 801, 0, 0] ∧
      ∀ j < 0, ([[0, 801, 0, 0]] : List (List Nat)).getD j [] ≠ [0, 801, 0, 0]) ∧
    (findOrAddPalette [[0, 801, 0, 0]] [0, 7, 0, 0] 16 =
      ((1 : Int), [[0, 801, 0, 0], [0, 7, 0, 0]])) ∧
    (findOrAddPalette [[0, 801, 0, 0]] [0, 7, 0, 0] 1 = (-1, [[0, 801, 0, 0]])) :=
  ⟨c7_palette_interning.1 [[0, 801, 0, 0]] [0, 801, 0, 0] 16 0 (by decide),
    c7_palette_interning.2.1 [[0, 801, 0, 0]] [0, 7, 0, 0] 16 (by decide) (by decide),
    c7_palette_interning.2.2.1 [[0, 801, 0, 0]] [0, 7, 0, 0] 1 (by decide) (by decide)⟩

/-- C8: LayerOverflow.  The planning pass fails exactly when some frame's
tile has a distinct-opaque-color count n with ceil(n/3) > maxLayers,
equivalently n > maxLayers*3; the failure payload names an offending frame,
tile coordinates, its observed color count and the budget maxLayers*3, and
the whole encode aborts with it, producing no output. -/
theorem c8_layer_overflow :
    (∀ (frames : List (List Nat)) (width height maxLayers : Nat) (e : LOErr),
      buildLayeredPlan frames width height maxLayers = .error e →
      e.budget = maxLayers * 3 ∧
      e.frame < frames.length ∧ e.tx < width / 8 ∧ e.ty < height / 8 ∧
      e.colorCount = (collectTileColors (frames.getD e.frame []) width e.tx e.ty).length ∧
      maxLayers * 3 < e.colorCount ∧
      maxLayers < (e.colorCount + 2) / 3) ∧
    (∀ (frames : List (List Nat)) (width height maxLayers : Nat),
      (∃ e, buildLayeredPlan frames width height maxLayers = .error e) ↔
      (∃ fi < frames.length, ∃ tx < width / 8, ∃ ty < height / 8,
        maxLayers * 3 < (collectTileColors (frames.getD fi []) width tx ty).length)) ∧
    (∀ (frames : List (List Nat)) (width height maxLayers maxPals : Nat) (e : LOErr),
      width % 8 = 0 → height % 8 = 0 →
      buildLayeredPlan frames width height maxLayers = .error e →
      encodeAll frames width height maxLayers maxPals = .error (.layerOverflow e)) := by
  refine ⟨?_, ?_, ?_⟩
  · intro frames width height maxLayers e h
    obtain ⟨i, hi, hover, he⟩ := buildLayeredPlan_error_spec frames width height maxLayers e h
    have hTPF0 : 0 < (width / 8) * (height / 8) := by
      rcases Nat.eq_zero_or_pos ((width / 8) * (height / 8)) with h0 | h0
      · rw [h0] at hi; omega
      · exact h0
    have hX0 : 0 < width / 8 := by
      rcases Nat.eq_zero_or_pos (width / 8) with h0 | h0
      · rw [h0] at hTPF0; omega
      · exact h0
    have hY0 : 0 < height / 8 := by
      rcases Nat.eq_zero_or_pos (height / 8) with h0 | h0
      · rw [h0] at hTPF0; omega
      · exact h0
    have hframe : i / ((width / 8) * (height / 8)) < frames.length := by
      rw [Nat.div_lt_iff_lt_mul hTPF0]
      omega
    have hmt : i % ((width / 8) * (height / 8)) < (width / 8) * (height / 8) :=
      Nat.mod_lt _ hTPF0
    have htx : (i % ((width / 8) * (height / 8))) % (width / 8) < width / 8 :=
      Nat.mod_lt _ hX0
    have hty : (i % ((width / 8) * (height / 8))) / (width / 8) < height / 8 := by
      rw [Nat.div_lt_iff_lt_mul hX0, Nat.mul_comm (height / 8) (width / 8)]
      exact hmt
    have hch : maxLayers < tileChunksAt
        (frames.getD (i / ((width / 8) * (height / 8))) []) width
        ((i % ((width / 8) * (height / 8))) % (width / 8))
        ((i % ((width / 8) * (height / 8))) / (width / 8)) := hover
    have hcdef : tileChunksAt
        (frames.getD (i / ((width / 8) * (height / 8))) []) width
        ((i % ((width / 8) * (height / 8))) % (width / 8))
        ((i % ((width / 8) * (height / 8))) / (width / 8)) =
        ((collectTileColors (frames.getD (i / ((width / 8) * (height / 8))) []) width
          ((i % ((width / 8) * (height / 8))) % (width / 8))
          ((i % ((width / 8) * (height / 8))) / (width / 8))).length + 2) / 3 := rfl
    have hch2 : maxLayers <
        ((collectTileColors (frames.getD (i / ((width / 8) * (height / 8))) []) width
          ((i % ((width / 8) * (height / 8))) % (width / 8))
          ((i % ((width / 8) * (height / 8))) / (width / 8))).length + 2) / 3 := by
      rw [← hcdef]
      exact hch
    subst he
    refine ⟨rfl, hframe, htx, hty, rfl, ?_, ?_⟩
    · show maxLayers * 3 <
        (collectTileColors (frames.getD (i / ((width / 8) * (height / 8))) []) width
          ((i % ((width / 8) * (height / 8))) % (width / 8))
          ((i % ((width / 8) * (height / 8))) / (width / 8))).length
      omega
    · show maxLayers <
        ((collectTileColors (frames.getD (i / ((width / 8) * (height / 8))) []) width
          ((i % ((width / 8) * (height / 8))) % (width / 8))
          ((i % ((width / 8) * (height / 8))) / (width / 8))).length + 2) / 3
      exact hch2
  · intro frames width height maxLayers
    constructor
    · rintro ⟨e, he⟩
      obtain ⟨i, hi, hover, hee⟩ :=
        buildLayeredPlan_error_spec frames width height maxLayers e he
      have hTPF0 : 0 < (width / 8) * (height / 8) := by
        rcases Nat.eq_zero_or_pos ((width / 8) * (height / 8)) with h0 | h0
        · rw [h0] at hi; omega
        · exact h0
      have hX0 : 0 < width / 8 := by
        rcases Nat.eq_zero_or_pos (width / 8) with h0 | h0
        · rw [h0] at hTPF0; omega
        · exact h0
      have hmt : i % ((width / 8) * (height / 8)) < (width / 8) * (height / 8) :=
        Nat.mod_lt _ hTPF0
      refine ⟨i / ((width / 8) * (height / 8)), by rw [Nat.div_lt_iff_lt_mul hTPF0]; omega,
        (i % ((width / 8) * (height / 8))) % (width / 8), Nat.mod_lt _ hX0,
        (i % ((width / 8) * (height / 8))) / (width / 8), ?_, ?_⟩
      · rw [Nat.div_lt_iff_lt_mul hX0, Nat.mul_comm (height / 8) (width / 8)]
        exact hmt
      · have hcdef : tileChunksAt
            (frames.getD (i / ((width / 8) * (height / 8))) []) width
            ((i % ((width / 8) * (height / 8))) % (width / 8))
            ((i % ((width / 8) * (height / 8))) / (width / 8)) =
            ((collectTileColors (frames.getD (i / ((width / 8) * (height / 8))) []) width
              ((i % ((width / 8) * (height / 8))) % (width / 8))
              ((i % ((width / 8) * (height / 8))) / (width / 8))).length + 2) / 3 := rfl
        have := hover
        unfold chunksAtIdx at this
        omega
    · rintro ⟨fi, hfi, tx, htx, ty, hty, hn⟩
      have ht : ty * (width / 8) + tx < (width / 8) * (height / 8) :=
        tile_index_lt tx ty (width / 8) (height / 8) htx hty
      have hI : fi * ((width / 8) * (height / 8)) + (ty * (width / 8) + tx) <
          frames.length * ((width / 8) * (height / 8)) := by
        have h2 := tile_index_lt (ty * (width / 8) + tx) fi
          ((width / 8) * (height / 8)) frames.length ht hfi
        rwa [Nat.mul_comm ((width / 8) * (height / 8)) frames.length] at h2
      have hIdm := indexPack_div_mod fi (ty * (width / 8) + tx)
        ((width / 8) * (height / 8)) ht
      have htdm := indexPack_div_mod ty tx (width / 8) htx
      refine buildLayeredPlan_isError_of_overflow frames width height maxLayers
        (fi * ((width / 8) * (height / 8)) + (ty * (width / 8) + tx)) hI ?_
      unfold chunksAtIdx
      rw [hIdm.1, hIdm.2, htdm.1, htdm.2]
      have hcdef : tileChunksAt (frames.getD fi []) width tx ty =
          ((collectTileColors (frames.getD fi []) width tx ty).length + 2) / 3 := rfl
      omega
  · intro frames width height maxLayers maxPals e hw8 hh8 he
    unfold encodeAll
    rw [if_pos ⟨hw8, hh8⟩, he]

/-- Witness for C8: a concrete tile with 10 distinct opaque colors under a
budget of 9 makes the plan fail, with the payload naming the tile, its count
and the budget. -/
theorem c8_layer_overflow_witness :
    (errOf (buildLayeredPlan [testFrameC8] 8 8 3)).budget = 3 * 3 ∧
    (errOf (buildLayeredPlan [testFrameC8] 8 8 3)).frame <
      ([testFrameC8] : List (List Nat)).length ∧
    (errOf (buildLayeredPlan [testFrameC8] 8 8 3)).tx < 8 / 8 ∧
    (errOf (buildLayeredPlan [testFrameC8] 8 8 3)).ty < 8 / 8 ∧
    (errOf (buildLayeredPlan [testFrameC8] 8 8 3)).colorCount =
      (collectTileColors
        (([testFrameC8] : List (List Nat)).getD
          (errOf (buildLayeredPlan [testFrameC8] 8 8 3)).frame []) 8
        (errOf (buildLayeredPlan [testFrameC8] 8 8 3)).tx
        (errOf (buildLayeredPlan [testFrameC8] 8 8 3)).ty).length ∧
    3 * 3 < (errOf (buildLayeredPlan [testFrameC8] 8 8 3)).colorCount ∧
    3 < ((errOf (buildLayeredPlan [testFrameC8] 8 8 3)).colorCount + 2) / 3 :=
  c8_layer_overflow.1 [testFrameC8] 8 8 3
    (errOf (buildLayeredPlan [testFrameC8] 8 8 3)) (by rfl)

/-- C9 counterexample: reading the claimed increasing-bit-position layout
back from an encoded tile does not recover the pixel code.  With a single
opaque pixel at column offset 7 (the greatest in its block), the encoder
stores code 1 in bits 0..1 (first byte 0x01), while the claim's
increasing-position reading finds 0 at bits 6..7. -/
theorem c9_counterexample :
    tilePixelCode testFrameC9 8 (buildIdxMap [colorA]) 7 0 = 1 ∧
    (encodeNgpcTile2bppLayered testFrameC9 8 0 0 [colorA]).getD 0 0 = 0x01 ∧
    decodePixelIdxIncreasing (encodeNgpcTile2bppLayered testFrameC9 8 0 0 [colorA]) 7 0 = 0 ∧
    decodePixelIdxIncreasing (encodeNgpcTile2bppLayered testFrameC9 8 0 0 [colorA]) 7 0 ≠
      tilePixelCode testFrameC9 8 (buildIdxMap [colorA]) 7 0 ∧
    decodePixelIdx (encodeNgpcTile2bppLayered testFrameC9 8 0 0 [colorA]) 7 0 = 1 := by
  refine ⟨by decide, by decide, by decide, by decide, by decide⟩

/-- C9 (amended): within each 4-pixel block, a pixel at a greater tile-column
offset has its 2-bit code at a strictly lower bit position (the rightmost
pixel sits at bits 0..1); reading the bytes with this decreasing mapping
(pixelBitShift) recovers every pixel code. -/
theorem c9_bit_positions :
    (∀ x x2 : Nat, x < 8 → x2 < 8 → x / 4 = x2 / 4 → x < x2 →
      pixelBitShift x2 < pixelBitShift x) ∧
    (∀ (pix : List Nat) (imgW x0 y0 : Nat) (group : List RGBA) (x y : Nat),
      x < 8 → y < 8 →
      decodePixelIdx (encodeNgpcTile2bppLayered pix imgW x0 y0 group) x y =
        tilePixelCode pix imgW (buildIdxMap group) (x0 + x) (y0 + y)) := by
  refine ⟨?_, ?_⟩
  · intro x x2 hx hx2 hblk hlt
    unfold pixelBitShift
    split
    · next h1 =>
      rw [if_pos (by omega)]
      omega
    · next h1 =>
      rw [if_neg (by omega)]
      omega
  · intro pix imgW x0 y0 group x y hx hy
    exact decodePixelIdx_encode pix imgW x0 y0 group x y hx hy

/-- Witness for C9 (amended) at concrete columns: column 7 gets a lower bit
position than column 4, and the decreasing decode recovers a concrete code. -/
theorem c9_bit_positions_witness :
    pixelBitShift 7 < pixelBitShift 4 ∧
    decodePixelIdx (encodeNgpcTile2bppLayered testFrameC9 8 0 0 [colorA]) 7 0 =
      tilePixelCode testFrameC9 8 (buildIdxMap [colorA]) (0 + 7) (0 + 0) :=
  ⟨c9_bit_positions.1 4 7 (by decide) (by decide) (by decide) (by decide),
    c9_bit_positions.2 testFrameC9 8 0 0 [colorA] 7 0 (by decide) (by decide)⟩

/-- C10: The palette builder uses only the high 4 bits of R, G, B and ignores
alpha: colors agreeing on those nibbles pack to the same RGB444 value.  On a
concrete tile holding two colors that differ only in (nonzero) alpha, the
analyzer and planner keep both as distinct colors in one group, their pixels
get the distinct codes 1 and 2, yet palette slots 1 and 2 hold the same
nonzero RGB444 value. -/
theorem c10_quantization :
    (∀ r g b r2 g2 b2 : Nat,
      (r >>> 4) &&& 15 = (r2 >>> 4) &&& 15 →
      (g >>> 4) &&& 15 = (g2 >>> 4) &&& 15 →
      (b >>> 4) &&& 15 = (b2 >>> 4) &&& 15 →
      rgbToRgb444 r g b = rgbToRgb444 r2 g2 b2) ∧
    (tileColorsSorted testFrameC10 8 0 0 =
      [⟨17, 0, 0, 128⟩, ⟨17, 0, 0, 255⟩] ∧
    (⟨17, 0, 0, 128⟩ : RGBA) ≠ ⟨17, 0, 0, 255⟩ ∧
    tileGroupAt testFrameC10 8 0 0 0 = [⟨17, 0, 0, 128⟩, ⟨17, 0, 0, 255⟩] ∧
    tilePixelCode testFrameC10 8 (buildIdxMap (tileGroupAt testFrameC10 8 0 0 0)) 1 0 = 1 ∧
    tilePixelCode testFrameC10 8 (buildIdxMap (tileGroupAt testFrameC10 8 0 0 0)) 0 0 = 2 ∧
    buildTilePaletteRgb444 (tileGroupAt testFrameC10 8 0 0 0) = [0, 1, 1, 0] ∧
    (buildTilePaletteRgb444 (tileGroupAt testFrameC10 8 0 0 0)).getD 1 0 =
      (buildTilePaletteRgb444 (tileGroupAt testFrameC10 8 0 0 0)).getD 2 0 ∧
    (buildTilePaletteRgb444 (tileGroupAt testFrameC10 8 0 0 0)).getD 1 0 ≠ 0) := by
  constructor
  · intro r g b r2 g2 b2 hr hg hb
    unfold rgbToRgb444
    rw [hr, hg, hb]
  · refine ⟨by decide, by decide, by decide, by decide, by decide, by decide, by decide,
      by decide⟩

/-- Witness for C10 at concrete channel values differing below the high
nibble and in alpha-independent position. -/
theorem c10_quantization_witness :
    rgbToRgb444 17 0 0 = rgbToRgb444 31 0 0 :=
  c10_quantization.1 17 0 0 31 0 0 (by decide) (by decide) (by decide)
